import Mathlib

/-!
# Verification of the tradle-app order-matching and P&L core

Shallow embedding of the trading-journal core:
* `Calc` — the trade calculator (`matchTrades`, `createTradeObject`,
  `calculateTrade`, `generateSummary`, contract registry), translated from
  the `TradeCalculator` class.
* `Store` — the trade store / deduplication engine
  (`mergeTradesWithDatabase`, `extractTradeOrderIds`) and the remote-sync
  pull merge (`pullTradeDatabase` loop with its content `fingerprint`).

Modelling conventions:
* JS numbers are modelled as `ℚ` (prices, quantities, commissions) and
  millisecond timestamps (`Date` values) as `ℤ`; nullable fields are
  `Option`s.
* JS truthiness is made explicit: a nullable number is truthy iff it is
  present and nonzero (`qTruthy`), a string iff nonempty (`sTruthy`),
  a `Date` iff non-null (`Option.isSome`).
* `Array.prototype.sort` with the comparator
  `(a.placingTime - b.placingTime) || (a.fillPrice - b.fillPrice)` is a
  stable sort for the total preorder `c(a,b) ≤ 0`; it is modelled by the
  stable `List.mergeSort` on that Bool-valued relation.
-/

/-- JS truthiness of a nullable number: `null`/`undefined` and `0` are falsy. -/
def qTruthy : Option ℚ → Bool
  | none => false
  | some q => decide (q ≠ 0)

/-- JS truthiness of a string: only `""` is falsy. -/
def sTruthy (s : String) : Bool := !(s == "")

/-- JS truthiness of a nullable string. -/
def osTruthy : Option String → Bool
  | none => false
  | some s => sTruthy s

/-- JS `a || b` on strings. -/
def jsOrS (a b : String) : String := if sTruthy a then a else b

/-- JS `a || b` where `a` is a nullable value whose truthiness is `isSome`
(used for fields holding objects or nonempty-string encodings). -/
def jsOrO {α : Type} (a b : Option α) : Option α := if a.isSome then a else b

/-- JS `Math.round`: round half towards `+∞`. -/
def jsRound (q : ℚ) : ℤ := ⌊q + 1/2⌋

/-- JS `Math.min` on numbers. -/
def jsMin (a b : ℚ) : ℚ := if a ≤ b then a else b

/-- JS `Math.max` on numbers. -/
def jsMax (a b : ℚ) : ℚ := if a ≤ b then b else a

/-- JS `Math.abs` on numbers. -/
def jsAbs (q : ℚ) : ℚ := if q < 0 then -q else q

/-- JS `Math.abs` on an integer quantity (timestamp differences). -/
def jsAbsZ (z : ℤ) : ℤ := if z < 0 then -z else z

lemma jsMin_eq_min (a b : ℚ) : jsMin a b = min a b := (min_def a b).symm

lemma jsMax_eq_max (a b : ℚ) : jsMax a b = max a b := by
  rw [jsMax, max_def]

lemma jsAbs_eq_abs (q : ℚ) : jsAbs q = |q| := by
  rw [jsAbs]
  rcases lt_or_le q 0 with h | h
  · rw [if_pos h, abs_of_neg h]
  · rw [if_neg (not_lt.mpr h), abs_of_nonneg h]

/-- `String.prototype.toLowerCase`, characterwise over the char list. -/
def toLowerStr (s : String) : String := String.mk (s.toList.map Char.toLower)

/-- `String.prototype.startsWith`, via the char lists. -/
def startsWithStr (s pre : String) : Bool := pre.toList.isPrefixOf s.toList

/-- Split a char list on every occurrence of the (nonempty) separator,
leftmost first; `cur` is the reversed chunk being accumulated.  Fuel-indexed
structural recursion: every step consumes at least one character, so
`l.length + 1` fuel always suffices. -/
def splitOnLAux (sep : List Char) : ℕ → List Char → List Char → List (List Char)
  | 0, l, cur => [cur.reverse ++ l]
  | _ + 1, [], cur => [cur.reverse]
  | fuel + 1, c :: rest, cur =>
    if sep.isPrefixOf (c :: rest) then
      cur.reverse :: splitOnLAux sep fuel (List.drop sep.length (c :: rest)) []
    else
      splitOnLAux sep fuel rest (c :: cur)

/-- `String.prototype.split(sep)` for a nonempty literal separator
(`"a_b".split("_") = ["a","b"]`); an empty separator returns the string
whole (that case is never exercised). -/
def splitOnStr (s sep : String) : List String :=
  if sep = "" then [s]
  else (splitOnLAux sep.toList (s.toList.length + 1) s.toList []).map String.mk

/-- Whether `pat` occurs in `s` as a substring (`String.prototype.includes`). -/
def containsSub (s pat : String) : Bool := (splitOnStr s pat).length != 1

/-- JS `String.prototype.replace(pat, '')` with a plain-string pattern:
replace only the first occurrence by the empty string. -/
def replaceFirstEmpty (s pat : String) : String :=
  match splitOnStr s pat with
  | [] => s
  | [x] => x
  | x :: y :: rest => x ++ String.intercalate pat (y :: rest)

/-- A character matched by the exchange-tag class `[A-Z0-9_]`. -/
def isExchChar (c : Char) : Bool := (c.isUpper || c.isDigit) || c == '_'

/-- JS `s.replace(/^[A-Z0-9_]+:/, '')`: strip a leading `EXCHANGE:` tag,
one or more chars of `[A-Z0-9_]` followed by a colon, when present. -/
def stripExchTag (s : String) : String :=
  let cs := s.toList
  let pre := cs.takeWhile isExchChar
  let rest := cs.drop pre.length
  match rest with
  | ':' :: tail => if pre.length > 0 then String.mk tail else s
  | _ => s

/-- First run of digits in a string, as matched by the JS regex `/(\d+)/`;
`none` when the string has no digit. -/
def firstDigitRun (s : String) : Option Nat :=
  let cs := s.toList.dropWhile (fun c => !c.isDigit)
  let run := cs.takeWhile Char.isDigit
  if run.isEmpty then none
  else some (run.foldl (fun n c => 10 * n + (c.toNat - '0'.toNat)) 0)

namespace Calc

/-- A parsed order row (`csvParser.parseTradingViewOrder` output), as consumed
by `TradeCalculator`.  `margin` abstracts the raw margin string: `none` is an
empty/absent string (falsy in JS), `some v` a nonempty string whose
`parseMargin` cleanup yields `v`.  `commission` is `none` when the field is
`undefined`, `some v` when present with numeric value `v` (a blank CSV
commission parses to `some 0`).  `originalQty` is only set on the
qty-adjusted copies made by the matcher. -/
structure Order where
  symbol : String
  side : String
  orderType : String
  qty : ℚ
  fillPrice : Option ℚ
  status : String
  placingTime : Option ℤ
  orderId : String
  commission : Option ℚ
  margin : Option ℚ
  leverage : String
  broker : String
  originalQty : Option ℚ := none
  deriving Repr, DecidableEq

/-- An open FIFO lot: `{ qty, price, order }` in `matchTrades`. -/
structure Lot where
  qty : ℚ
  price : Option ℚ
  order : Order
  deriving Repr, DecidableEq

/-- A matched (pre-P&L) trade, as built by `createTradeObject`.
`entryPrice`/`exitPrice` copy the orders' fill prices (always present for
matcher-produced trades; absent fill prices coerce to 0 as JS `null` does in
arithmetic). -/
structure Trade where
  id : String
  entryOrder : Order
  exitOrder : Order
  entryPrice : ℚ
  exitPrice : ℚ
  quantity : ℚ
  entryTime : Option ℤ
  exitTime : Option ℤ
  contract : String
  side : String
  margin : ℚ
  leverage : String
  broker : String
  deriving Repr, DecidableEq

/-- `parseMargin` on the abstracted margin field: empty string parses to 0. -/
def parseMargin (m : Option ℚ) : ℚ := m.getD 0

/-- `createTradeObject(order1, order2)`: order1 is the entry, order2 the exit. -/
def createTradeObject (order1 order2 : Order) : Trade :=
  let entryOrder := order1
  let exitOrder := order2
  let side := if toLowerStr entryOrder.side == "buy" then "LONG" else "SHORT"
  { id := "trade_" ++ entryOrder.orderId ++ "_" ++ exitOrder.orderId
    entryOrder := entryOrder
    exitOrder := exitOrder
    entryPrice := entryOrder.fillPrice.getD 0
    exitPrice := exitOrder.fillPrice.getD 0
    quantity := entryOrder.qty
    entryTime := entryOrder.placingTime
    exitTime := exitOrder.placingTime
    contract := jsOrS (stripExchTag (jsOrS entryOrder.symbol ""))
      (jsOrS entryOrder.symbol "Unknown")
    side := side
    margin := parseMargin (jsOrO entryOrder.margin exitOrder.margin)
    leverage := jsOrS entryOrder.leverage (jsOrS exitOrder.leverage "")
    broker := jsOrS entryOrder.broker (jsOrS exitOrder.broker "") }

/-- A fresh lot opened by `order` (`pos.push({qty: order.qty, price: order.fillPrice, order})`). -/
def mkLot (order : Order) : Lot := { qty := order.qty, price := order.fillPrice, order := order }

/-- The qty-adjusted entry copy `{...lot.order, originalQty: lot.order.qty, qty: closeQty}`. -/
def entryCopy (lot : Lot) (closeQty : ℚ) : Order :=
  { lot.order with originalQty := some lot.order.qty, qty := closeQty }

/-- The qty-adjusted exit copy `{...order, originalQty: order.qty, qty: closeQty}`. -/
def exitCopy (order : Order) (closeQty : ℚ) : Order :=
  { order with originalQty := some order.qty, qty := closeQty }

/-- The body of the inner `while (remainingQty > 0 && pos.length > 0)` loop
of `matchTrades`, as a fuel-indexed structural recursion: close open lots
FIFO against `order`, returning the emitted trades in order, the leftover
order quantity, and the surviving queue.  Every iteration either removes the
head lot or zeroes the remaining quantity (when the head lot survives,
`closeQty < lot.qty` forces `closeQty = remaining`), so the loop runs at most
`pos.length + 1` times; `closeLotsAux_fuel_eq` proves the fuel supplied by
`closeLots` is irrelevant beyond that bound. -/
def closeLotsAux (order : Order) : ℕ → ℚ → List Lot → List Trade × ℚ × List Lot
  | 0, remaining, pos => ([], remaining, pos)
  | _ + 1, remaining, [] => ([], remaining, [])
  | fuel + 1, remaining, lot :: rest =>
    if remaining ≤ 0 then ([], remaining, lot :: rest)
    else
      let closeQty := jsMin remaining lot.qty
      let trade := createTradeObject (entryCopy lot closeQty) (exitCopy order closeQty)
      if lot.qty - closeQty ≤ 0 then
        let r := closeLotsAux order fuel (remaining - closeQty) rest
        (trade :: r.1, r.2.1, r.2.2)
      else
        let r := closeLotsAux order fuel (remaining - closeQty)
          ({ lot with qty := lot.qty - closeQty } :: rest)
        (trade :: r.1, r.2.1, r.2.2)

/-- The inner closing loop of `matchTrades` with its sufficient fuel. -/
def closeLots (order : Order) (remaining : ℚ) (pos : List Lot) :
    List Trade × ℚ × List Lot :=
  closeLotsAux order (pos.length + 1) remaining pos

lemma closeLotsAux_nonpos (order : Order) (fuel : ℕ) (remaining : ℚ) (pos : List Lot)
    (hrem : remaining ≤ 0) (hfuel : 1 ≤ fuel) :
    closeLotsAux order fuel remaining pos = ([], remaining, pos) := by
  obtain ⟨f, rfl⟩ : ∃ f, fuel = f + 1 := ⟨fuel - 1, by omega⟩
  cases pos with
  | nil => simp [closeLotsAux]
  | cons lot rest => simp [closeLotsAux, if_pos hrem]

lemma surviving_lot_zeroes_remaining {remaining q : ℚ}
    (hsurv : ¬ (q - jsMin remaining q ≤ 0)) : jsMin remaining q = remaining := by
  rw [jsMin_eq_min] at hsurv ⊢
  rcases min_cases remaining q with ⟨h1, _⟩ | ⟨h1, _⟩
  · exact h1
  · exfalso; rw [h1] at hsurv; simp at hsurv

/-- The fuel supplied by `closeLots` is sufficient: any fuel of at least
`pos.length + 1` yields the same run of the closing loop. -/
lemma closeLotsAux_fuel_eq (order : Order) :
    ∀ (fuel fuel' : ℕ) (remaining : ℚ) (pos : List Lot),
      pos.length + 1 ≤ fuel → pos.length + 1 ≤ fuel' →
      closeLotsAux order fuel remaining pos = closeLotsAux order fuel' remaining pos := by
  intro fuel
  induction fuel with
  | zero => intro fuel' remaining pos h h'; omega
  | succ f ih =>
    intro fuel' remaining pos h h'
    obtain ⟨f', rfl⟩ : ∃ g, fuel' = g + 1 := ⟨fuel' - 1, by omega⟩
    cases pos with
    | nil => simp [closeLotsAux]
    | cons lot rest =>
      by_cases hrem : remaining ≤ 0
      · simp [closeLotsAux, if_pos hrem]
      · simp only [closeLotsAux, if_neg hrem]
        by_cases hcons : lot.qty - jsMin remaining lot.qty ≤ 0
        · simp only [if_pos hcons, List.length_cons] at *
          rw [ih f' (remaining - jsMin remaining lot.qty) rest (by omega) (by omega)]
        · simp only [if_neg hcons, List.length_cons] at *
          have hmin := surviving_lot_zeroes_remaining hcons
          have hz : remaining - jsMin remaining lot.qty ≤ 0 := by rw [hmin]; simp
          rw [closeLotsAux_nonpos order f _ _ hz (by omega),
            closeLotsAux_nonpos order f' _ _ hz (by omega)]

/-- Per-symbol position queues, a JS object `positions` keyed by symbol. -/
def lookupPos (positions : List (String × List Lot)) (sym : String) : List Lot :=
  ((positions.find? (fun p => p.1 == sym)).map Prod.snd).getD []

/-- Write back one symbol's queue (`positions[sym] = pos`). -/
def setPos (positions : List (String × List Lot)) (sym : String) (pos : List Lot) :
    List (String × List Lot) :=
  if (positions.find? (fun p => p.1 == sym)).isSome then
    positions.map (fun p => if p.1 == sym then (p.1, pos) else p)
  else
    positions ++ [(sym, pos)]

/-- Matcher state: emitted trades plus the per-symbol queues. -/
structure MatchState where
  trades : List Trade
  positions : List (String × List Lot)
  deriving Repr, DecidableEq

/-- One iteration of the `for (const order of validOrders)` loop of
`matchTrades` (the `status !== 'Filled'` continue, the open/scale pushes,
and the FIFO closing with a possible position flip). -/
def processOrder (st : MatchState) (order : Order) : MatchState :=
  if order.status ≠ "Filled" then st
  else
    let sym := order.symbol
    match lookupPos st.positions sym with
    | [] => { st with positions := setPos st.positions sym [mkLot order] }
    | lot0 :: restLots =>
      let pos := lot0 :: restLots
      let openSide := toLowerStr lot0.order.side
      if openSide == toLowerStr order.side then
        { st with positions := setPos st.positions sym (pos ++ [mkLot order]) }
      else
        let r := closeLots order order.qty pos
        let newPos :=
          if 0 < r.2.1 then
            r.2.2 ++ [{ qty := r.2.1, price := order.fillPrice, order := order }]
          else r.2.2
        { trades := st.trades ++ r.1, positions := setPos st.positions sym newPos }

/-- The sort relation of `.sort((a, b) => (a.placingTime - b.placingTime) ||
(a.fillPrice - b.fillPrice))`: `a` may precede `b` iff the comparator is
`≤ 0`. -/
def orderLE (a b : Order) : Bool :=
  decide (a.placingTime.getD 0 < b.placingTime.getD 0) ||
    (a.placingTime.getD 0 == b.placingTime.getD 0 &&
      decide (a.fillPrice.getD 0 ≤ b.fillPrice.getD 0))

/-- The precondition filter of `matchTrades`:
`orders.filter(order => order.fillPrice && order.placingTime)`. -/
def validFilter (o : Order) : Bool := qTruthy o.fillPrice && o.placingTime.isSome

/-- `validOrders`: filter then stable sort by (time, price). -/
def validSorted (orders : List Order) : List Order :=
  (orders.filter validFilter).mergeSort orderLE

/-- The whole `matchTrades` loop, keeping the final positions. -/
def matchState (orders : List Order) : MatchState :=
  (validSorted orders).foldl processOrder ⟨[], []⟩

/-- `matchTrades(orders)`: the emitted trades. -/
def matchTrades (orders : List Order) : List Trade :=
  (matchState orders).trades

/-- Residual open quantity left in `sym`'s queue after matching
(the per-symbol unclosed quantity reported at the end of `matchTrades`). -/
def residualQty (orders : List Order) (sym : String) : ℚ :=
  ((lookupPos (matchState orders).positions sym).map Lot.qty).sum

/-- Contract spec: price multiplier and per-side commission. -/
structure ContractSpec where
  multiplier : ℚ
  commission : ℚ
  name : String
  deriving Repr, DecidableEq

/-- CME futures rows of `CONTRACT_SPECS`. -/
def specsFutures : List (String × ContractSpec) :=
  [ ("ES1!", ⟨50, 5/2, "E-mini S&P 500"⟩),
    ("MES1!", ⟨5, 62/100, "Micro E-mini S&P 500"⟩),
    ("NQ1!", ⟨20, 5/2, "E-mini Nasdaq-100"⟩),
    ("MNQ1!", ⟨2, 62/100, "Micro E-mini Nasdaq-100"⟩),
    ("YM1!", ⟨5, 5/2, "E-mini Dow"⟩),
    ("MYM1!", ⟨1/2, 62/100, "Micro E-mini Dow"⟩),
    ("RTY1!", ⟨50, 5/2, "E-mini Russell 2000"⟩),
    ("M2K1!", ⟨5, 62/100, "Micro E-mini Russell 2000"⟩),
    ("CL1!", ⟨1000, 5/2, "Crude Oil"⟩),
    ("MCL1!", ⟨100, 62/100, "Micro Crude Oil"⟩),
    ("GC1!", ⟨100, 5/2, "Gold"⟩),
    ("MGC1!", ⟨10, 62/100, "Micro Gold"⟩),
    ("SI1!", ⟨5000, 5/2, "Silver"⟩),
    ("NG1!", ⟨10000, 5/2, "Natural Gas"⟩),
    ("ZB1!", ⟨1000, 5/2, "30-Year T-Bond"⟩),
    ("ZN1!", ⟨1000, 5/2, "10-Year T-Note"⟩),
    ("6E1!", ⟨125000, 5/2, "Euro FX"⟩),
    ("6J1!", ⟨12500000, 5/2, "Japanese Yen"⟩),
    ("ZC1!", ⟨50, 5/2, "Corn"⟩),
    ("ZW1!", ⟨50, 5/2, "Wheat"⟩),
    ("ZS1!", ⟨50, 5/2, "Soybeans"⟩),
    ("HG1!", ⟨25000, 5/2, "Copper"⟩),
    ("PL1!", ⟨50, 5/2, "Platinum"⟩),
    ("6B1!", ⟨62500, 5/2, "British Pound"⟩),
    ("6C1!", ⟨100000, 5/2, "Canadian Dollar"⟩),
    ("6A1!", ⟨100000, 5/2, "Australian Dollar"⟩),
    ("6S1!", ⟨125000, 5/2, "Swiss Franc"⟩),
    ("6N1!", ⟨100000, 5/2, "New Zealand Dollar"⟩),
    ("6M1!", ⟨500000, 5/2, "Mexican Peso"⟩) ]

/-- CFD index rows of `CONTRACT_SPECS`. -/
def specsCfdIndices : List (String × ContractSpec) :=
  [ ("SPXUSD", ⟨1, 0, "S&P 500 CFD"⟩),
    ("NAS100", ⟨1, 0, "Nasdaq 100 CFD"⟩),
    ("US30", ⟨1, 0, "Dow Jones CFD"⟩),
    ("US2000", ⟨1, 0, "Russell 2000 CFD"⟩),
    ("GER40", ⟨1, 0, "DAX 40 CFD"⟩),
    ("UK100", ⟨1, 0, "FTSE 100 CFD"⟩),
    ("FRA40", ⟨1, 0, "CAC 40 CFD"⟩),
    ("JPN225", ⟨1, 0, "Nikkei 225 CFD"⟩),
    ("HK50", ⟨1, 0, "Hang Seng CFD"⟩),
    ("AUS200", ⟨1, 0, "ASX 200 CFD"⟩) ]

/-- CFD commodity rows of `CONTRACT_SPECS`. -/
def specsCfdCommodities : List (String × ContractSpec) :=
  [ ("XAUUSD", ⟨1, 0, "Gold CFD"⟩),
    ("XAGUSD", ⟨1, 0, "Silver CFD"⟩),
    ("XPTUSD", ⟨1, 0, "Platinum CFD"⟩),
    ("USOIL", ⟨1, 0, "US Crude Oil CFD"⟩),
    ("UKOIL", ⟨1, 0, "Brent Oil CFD"⟩),
    ("NATGAS", ⟨1, 0, "Natural Gas CFD"⟩) ]

/-- CFD forex major rows of `CONTRACT_SPECS` (including reversed-quote variants). -/
def specsCfdForexMajors : List (String × ContractSpec) :=
  [ ("EURUSD", ⟨1, 0, "EUR/USD"⟩),
    ("GBPUSD", ⟨1, 0, "GBP/USD"⟩),
    ("USDJPY", ⟨1, 0, "USD/JPY"⟩),
    ("USDCHF", ⟨1, 0, "USD/CHF"⟩),
    ("AUDUSD", ⟨1, 0, "AUD/USD"⟩),
    ("NZDUSD", ⟨1, 0, "NZD/USD"⟩),
    ("USDCAD", ⟨1, 0, "USD/CAD"⟩),
    ("USDEUR", ⟨1, 0, "USD/EUR"⟩),
    ("USDGBP", ⟨1, 0, "USD/GBP"⟩),
    ("JPYUSD", ⟨1, 0, "JPY/USD"⟩) ]

/-- CFD forex cross rows of `CONTRACT_SPECS`. -/
def specsCfdForexCrosses : List (String × ContractSpec) :=
  [ ("EURGBP", ⟨1, 0, "EUR/GBP"⟩),
    ("EURJPY", ⟨1, 0, "EUR/JPY"⟩),
    ("EURCAD", ⟨1, 0, "EUR/CAD"⟩),
    ("EURCHF", ⟨1, 0, "EUR/CHF"⟩),
    ("EURAUD", ⟨1, 0, "EUR/AUD"⟩),
    ("EURNZD", ⟨1, 0, "EUR/NZD"⟩),
    ("GBPJPY", ⟨1, 0, "GBP/JPY"⟩),
    ("GBPCAD", ⟨1, 0, "GBP/CAD"⟩),
    ("GBPCHF", ⟨1, 0, "GBP/CHF"⟩),
    ("GBPAUD", ⟨1, 0, "GBP/AUD"⟩),
    ("GBPNZD", ⟨1, 0, "GBP/NZD"⟩),
    ("AUDJPY", ⟨1, 0, "AUD/JPY"⟩),
    ("AUDCAD", ⟨1, 0, "AUD/CAD"⟩),
    ("AUDCHF", ⟨1, 0, "AUD/CHF"⟩),
    ("AUDNZD", ⟨1, 0, "AUD/NZD"⟩),
    ("CADJPY", ⟨1, 0, "CAD/JPY"⟩),
    ("CHFJPY", ⟨1, 0, "CHF/JPY"⟩),
    ("NZDJPY", ⟨1, 0, "NZD/JPY"⟩),
    ("NZDCAD", ⟨1, 0, "NZD/CAD"⟩),
    ("NZDCHF", ⟨1, 0, "NZD/CHF"⟩) ]

/-- CFD crypto rows of `CONTRACT_SPECS`. -/
def specsCfdCrypto : List (String × ContractSpec) :=
  [ ("BTCUSD", ⟨1, 0, "Bitcoin CFD"⟩),
    ("ETHUSD", ⟨1, 0, "Ethereum CFD"⟩) ]

/-- The `CONTRACT_SPECS` registry (symbol → spec): the source object's
comment-delimited groups concatenated in order. -/
def CONTRACT_SPECS : List (String × ContractSpec) :=
  specsFutures ++ specsCfdIndices ++ specsCfdCommodities ++
    specsCfdForexMajors ++ specsCfdForexCrosses ++ specsCfdCrypto
/-- `DEFAULT_SPECS` for unknown symbols. -/
def DEFAULT_SPECS : ContractSpec := ⟨1, 0, "Unknown"⟩

/-- `getContractSpecs(symbolRaw)`: strip exchange tag, look up, fall back. -/
def getContractSpecs (symbolRaw : String) : ContractSpec :=
  if !(sTruthy symbolRaw) then DEFAULT_SPECS
  else
    let stripped := stripExchTag symbolRaw
    (((List.find? (fun p => p.1 == stripped) CONTRACT_SPECS).map Prod.snd).getD DEFAULT_SPECS)

/-- JS `a || b` for a nullable number against a number default
(`originalQty || quantity` style: absent and `0` both fall back). -/
def jsOrQn (a : Option ℚ) (b : ℚ) : ℚ :=
  match a with
  | some v => if v ≠ 0 then v else b
  | none => b

/-- A priced trade, the output of `calculateTrade`.  `toTrade` carries the
spread `{...trade}` with the `side`/`contract`/`leverage`/`broker` fallback
overrides applied.  The display-only formatted-string fields
(`date`, `boughtDate`, `soldDate`, `duration`, `images`, `notes`, `tags`) are
pure renderings of data already present and are not modelled. -/
structure CalculatedTrade where
  toTrade : Trade
  pointDifference : ℚ
  grossProfit : ℚ
  totalCommission : ℚ
  netProfit : ℚ
  returnValue : ℤ
  status : String
  isWin : Bool
  commissionRate : ℚ
  currency : String
  entryOrderId : String
  exitOrderId : String
  deriving Repr, DecidableEq

/-- The `effectiveMultiplier` computation of `calculateTrade`:
`let effectiveMultiplier = specs.multiplier` followed by the conditional
reassignment to the margin/leverage-derived value on a more-than-10%
deviation. -/
def effectiveMultiplierOf (trade : Trade) : ℚ :=
  let specs := getContractSpecs trade.contract
  let entryPrice := trade.entryPrice
  let quantity := trade.quantity
  if 0 < trade.margin ∧ sTruthy trade.leverage then
    match firstDigitRun trade.leverage with
    | some lev =>
      let levVal : ℚ := lev
      let refQty := jsOrQn trade.entryOrder.originalQty quantity
      if 0 < levVal ∧ 0 < refQty ∧ 0 < entryPrice then
        let derived := (trade.margin * levVal) / (refQty * entryPrice)
        let specMult := if specs.multiplier ≠ 0 then specs.multiplier else 1
        if jsAbs (derived - specMult) / specMult > 1/10 then derived
        else specs.multiplier
      else specs.multiplier
    | none => specs.multiplier
  else specs.multiplier

/-- `calculateTrade(trade)`: P&L for a single matched trade. -/
def calculateTrade (trade : Trade) : CalculatedTrade :=
  let entryPrice := trade.entryPrice
  let exitPrice := trade.exitPrice
  let quantity := trade.quantity
  let side := jsOrS trade.side "LONG"
  let specs := getContractSpecs trade.contract
  let pointDifference :=
    if side == "SHORT" then entryPrice - exitPrice else exitPrice - entryPrice
  let effectiveMultiplier := effectiveMultiplierOf trade
  let grossProfit := pointDifference * quantity * effectiveMultiplier
  -- `parseFloat(order.commission) || 0` (an absent field parses to NaN → 0)
  let entryCommNum := trade.entryOrder.commission.getD 0
  let exitCommNum := trade.exitOrder.commission.getD 0
  -- The `entryOrder &&` guard of the source is vacuous here: matcher-produced
  -- trades always carry both order legs.
  let totalCommission :=
    if trade.entryOrder.commission.isSome ∧ (0 < entryCommNum ∨ 0 < exitCommNum) then
      let origEntryQty := jsOrQn trade.entryOrder.originalQty quantity
      let origExitQty := jsOrQn trade.exitOrder.originalQty quantity
      entryCommNum * (quantity / origEntryQty) + exitCommNum * (quantity / origExitQty)
    else specs.commission * 2 * quantity
  let netProfit := grossProfit - totalCommission
  let isWin := 0 < netProfit
  let status := if isWin then "WIN" else "LOSE"
  let returnValue := jsRound netProfit
  { toTrade :=
      { trade with
        side := side
        contract := jsOrS trade.contract (jsOrS trade.entryOrder.symbol "Unknown")
        leverage := jsOrS trade.leverage ""
        broker := jsOrS trade.broker (jsOrS trade.entryOrder.broker "") }
    pointDifference := pointDifference
    grossProfit := grossProfit
    totalCommission := totalCommission
    netProfit := netProfit
    returnValue := returnValue
    status := status
    isWin := decide isWin
    commissionRate := specs.commission
    currency := "USD"
    entryOrderId := trade.entryOrder.orderId
    exitOrderId := trade.exitOrder.orderId }

/-- Profit factor value: a finite ratio or JS `Infinity`. -/
inductive PFVal where
  | fin (q : ℚ)
  | inf
  deriving Repr, DecidableEq

/-- `calculateProfitFactor(winningTrades, losingTrades)`. -/
def calculateProfitFactor (winningTrades losingTrades : List CalculatedTrade) : PFVal :=
  let grossWin := (winningTrades.map (·.netProfit)).sum
  let grossLoss := jsAbs ((losingTrades.map (·.netProfit)).sum)
  if 0 < grossLoss then .fin (grossWin / grossLoss)
  else if 0 < grossWin then .inf
  else .fin 0

/-- `calculateSharpeRatio(profits)`: `mean/stdev`, 0 for fewer than 2 trades
or zero deviation.  `Math.sqrt` forces the result into `ℝ`. -/
noncomputable def calculateSharpeRatio (profits : List ℚ) : ℝ :=
  if profits.length < 2 then 0
  else
    let mean := profits.sum / (profits.length : ℚ)
    let variance := (profits.map (fun p => (p - mean) ^ 2)).sum / (profits.length : ℚ)
    let standardDeviation := Real.sqrt (variance : ℝ)
    if 0 < standardDeviation then (mean : ℝ) / standardDeviation else 0

/-- `calculateMaxDrawdown(trades)`: peak-to-trough of the running net-profit
sum, via the (runningTotal, peak, maxDrawdown) accumulator. -/
def calculateMaxDrawdown (trades : List CalculatedTrade) : ℚ :=
  (trades.foldl
    (fun acc trade =>
      let runningTotal := acc.1 + trade.netProfit
      let peak := if runningTotal > acc.2.1 then runningTotal else acc.2.1
      let drawdown := peak - runningTotal
      let maxDD := if drawdown > acc.2.2 then drawdown else acc.2.2
      (runningTotal, peak, maxDD))
    ((0 : ℚ), (0 : ℚ), (0 : ℚ))).2.2

/-- `getMaxConsecutive(trades, isWin)`: longest run of trades with the given
win flag, via the (currentConsecutive, maxConsecutive) accumulator. -/
def getMaxConsecutive (trades : List CalculatedTrade) (isW : Bool) : ℕ :=
  (trades.foldl
    (fun acc trade =>
      if trade.isWin == isW then (acc.1 + 1, max acc.2 (acc.1 + 1))
      else (0, acc.2))
    ((0 : ℕ), (0 : ℕ))).2

/-- `getDateRange(trades)`: first and last entry time among the trades. -/
def getDateRange (trades : List CalculatedTrade) : Option (ℤ × ℤ) :=
  if trades.length = 0 then none
  else
    let dates := ((trades.map (fun t => t.toTrade.entryTime)).filterMap id).mergeSort
      (fun a b => decide (a ≤ b))
    match dates with
    | [] => none
    | d :: rest => some (d, (d :: rest).getLastD d)

/-- JS `Math.max(...list)` for a nonempty list (the empty case, `-Infinity`
in JS, is unreachable behind the `trades.length === 0` guard). -/
def jsMaxOfList : List ℚ → ℚ
  | [] => 0
  | x :: xs => xs.foldl jsMax x

/-- JS `Math.min(...list)` for a nonempty list. -/
def jsMinOfList : List ℚ → ℚ
  | [] => 0
  | x :: xs => xs.foldl jsMin x

/-- The aggregate summary record produced by `generateSummary`. -/
structure Summary where
  totalTrades : ℕ
  totalProfit : ℚ
  totalGrossProfit : ℚ
  totalCommission : ℚ
  winCount : ℕ
  lossCount : ℕ
  winRate : ℚ
  bestTrade : ℚ
  worstTrade : ℚ
  averageProfit : ℚ
  averageWin : ℚ
  averageLoss : ℚ
  profitFactor : PFVal
  sharpeRatio : ℝ
  maxDrawdown : ℚ
  consecutiveWins : ℕ
  consecutiveLosses : ℕ
  dateRange : Option (ℤ × ℤ)

/-- `getEmptySummary()`. -/
noncomputable def getEmptySummary : Summary :=
  { totalTrades := 0, totalProfit := 0, totalGrossProfit := 0, totalCommission := 0
    winCount := 0, lossCount := 0, winRate := 0, bestTrade := 0, worstTrade := 0
    averageProfit := 0, averageWin := 0, averageLoss := 0, profitFactor := .fin 0
    sharpeRatio := 0, maxDrawdown := 0, consecutiveWins := 0, consecutiveLosses := 0
    dateRange := none }

/-- `generateSummary(trades)`. -/
noncomputable def generateSummary (trades : List CalculatedTrade) : Summary :=
  if trades.length = 0 then getEmptySummary
  else
    let totalProfit := (trades.map (·.netProfit)).sum
    let winningTrades := trades.filter (·.isWin)
    let losingTrades := trades.filter (fun t => !t.isWin)
    let winCount := winningTrades.length
    let lossCount := losingTrades.length
    let winRate := if 0 < trades.length then ((winCount : ℚ) / (trades.length : ℚ)) * 100 else 0
    let profits := trades.map (·.netProfit)
    let bestTrade := jsMaxOfList profits
    let worstTrade := jsMinOfList profits
    let averageProfit := totalProfit / (trades.length : ℚ)
    let totalCommission := (trades.map (·.totalCommission)).sum
    let totalGrossProfit := (trades.map (·.grossProfit)).sum
    { totalTrades := trades.length
      totalProfit := totalProfit
      totalGrossProfit := totalGrossProfit
      totalCommission := totalCommission
      winCount := winCount
      lossCount := lossCount
      winRate := winRate
      bestTrade := bestTrade
      worstTrade := worstTrade
      averageProfit := averageProfit
      averageWin :=
        if 0 < winCount then (winningTrades.map (·.netProfit)).sum / (winCount : ℚ) else 0
      averageLoss :=
        if 0 < lossCount then (losingTrades.map (·.netProfit)).sum / (lossCount : ℚ) else 0
      profitFactor := calculateProfitFactor winningTrades losingTrades
      sharpeRatio := calculateSharpeRatio profits
      maxDrawdown := calculateMaxDrawdown trades
      consecutiveWins := getMaxConsecutive trades true
      consecutiveLosses := getMaxConsecutive trades false
      dateRange := getDateRange trades }

end Calc

namespace Store

/-- The fields of an order read by the deduplication engine
(`extractTradeOrderIds` and the pull merge). -/
structure SOrder where
  orderId : String
  placingTime : Option ℤ
  fillPrice : Option ℚ
  deriving Repr, DecidableEq

/-- A stored/incoming trade as seen by the deduplication engine.
`entryOrderRefId`/`exitOrderRefId` stand for the optional-chained
`trade.entryOrder?.orderId` / `trade.exitOrder?.orderId` reads (only the
nested `orderId` is ever accessed). -/
structure STrade where
  id : Option String
  entryOrderId : Option String
  exitOrderId : Option String
  entryOrderRefId : Option String
  exitOrderRefId : Option String
  allOrderIds : Option (List String)
  entryTime : Option ℤ
  exitTime : Option ℤ
  entryPrice : Option ℚ
  exitPrice : Option ℚ
  contract : Option String
  symbol : Option String
  deriving Repr, DecidableEq

/-- `[ s ]` when the nullable string is truthy, else `[]` (a guarded
`orderIds.push(...)`). -/
def optPush (s : Option String) : List String :=
  match s with
  | some v => if sTruthy v then [v] else []
  | none => []

/-- `[...new Set(list)]`: remove duplicates keeping first occurrences. -/
def jsSetDedup (l : List String) : List String :=
  go [] l
where
  go (seen : List String) : List String → List String
    | [] => []
    | x :: xs => if x ∈ seen then go seen xs else x :: go (x :: seen) xs

/-- `extractTradeOrderIds(trade, orders)`: resolve a trade's order IDs by
priority — direct IDs, nested order objects, the structured
`trade_{entryId}_{exitId}` id, then fuzzy time+price matching. -/
def extractTradeOrderIds (trade : STrade) (orders : List SOrder) : List String :=
  let orderIds : List String := optPush trade.entryOrderId ++ optPush trade.exitOrderId
  let orderIds :=
    if orderIds.isEmpty then
      orderIds ++ optPush trade.entryOrderRefId ++ optPush trade.exitOrderRefId
    else orderIds
  let orderIds :=
    if orderIds.isEmpty ∧ osTruthy trade.id ∧ startsWithStr (trade.id.getD "") "trade_" then
      orderIds ++ ((splitOnStr (replaceFirstEmpty (trade.id.getD "") "trade_") "_").filter
        (fun part => sTruthy part && part != "undefined" && part != "null"))
    else orderIds
  let orderIds :=
    if orderIds.isEmpty then
      orderIds ++ orders.foldl
        (fun acc order =>
          if !(sTruthy order.orderId) || !order.placingTime.isSome || !(qTruthy order.fillPrice)
          then acc
          else
            let orderTime := order.placingTime.getD 0
            let orderPrice := order.fillPrice.getD 0
            if jsAbsZ (orderTime - trade.entryTime.getD 0) < 60000 ∧
                jsAbs (orderPrice - trade.entryPrice.getD 0) < 1/100 then
              acc ++ [order.orderId]
            else if jsAbsZ (orderTime - trade.exitTime.getD 0) < 60000 ∧
                jsAbs (orderPrice - trade.exitPrice.getD 0) < 1/100 then
              acc ++ [order.orderId]
            else acc)
        []
    else orderIds
  jsSetDedup orderIds

/-- The trade database: stored trades plus the global tracked order-ID set
(a JS `Set`, modelled as a duplicate-free membership list). -/
structure TradeDB where
  trades : List STrade
  orderIds : List String
  deriving Repr, DecidableEq

/-- `Set.prototype.add`. -/
def setAdd (s : List String) (x : String) : List String :=
  if x ∈ s then s else s ++ [x]

/-- `generateTradeId()` draws on `Date.now()` and `Math.random()`; the merge
logic never reads the generated id back, so the nondeterministic fresh string
is modelled by a constant tag. -/
def generateTradeId : String := "trade_generated"

/-- `tradeOrderIds[i] || null`. -/
def idxOrNull (l : List String) (i : ℕ) : Option String :=
  match l.get? i with
  | some s => if sTruthy s then some s else none
  | none => none

/-- Result of `mergeTradesWithDatabase`: the mutated database plus the
returned statistics. -/
structure MergeOut where
  db : TradeDB
  newTrades : ℕ
  duplicates : ℕ
  addedTrades : List STrade
  deriving Repr, DecidableEq

/-- One iteration of the `newTrades.forEach` body of
`mergeTradesWithDatabase`. -/
def mergeStep (newOrders : List SOrder) (acc : MergeOut) (trade : STrade) : MergeOut :=
  let tradeOrderIds := extractTradeOrderIds trade newOrders
  if tradeOrderIds.isEmpty then
    -- No Order IDs found: add without Order ID tracking (fallback behaviour)
    let enhancedTrade := { trade with id := some generateTradeId }
    { acc with
      db := { acc.db with trades := acc.db.trades ++ [enhancedTrade] }
      newTrades := acc.newTrades + 1
      addedTrades := acc.addedTrades ++ [enhancedTrade] }
  else if tradeOrderIds.any (fun oid => acc.db.orderIds.contains oid) then
    { acc with duplicates := acc.duplicates + 1 }
  else
    let tradeId :=
      if osTruthy trade.id ∧ startsWithStr (trade.id.getD "") "trade_" ∧
          ¬ (containsSub (trade.id.getD "") "_undefined" = true) then
        trade.id.getD ""
      else generateTradeId
    let enhancedTrade :=
      { trade with
        id := some tradeId
        entryOrderId := idxOrNull tradeOrderIds 0
        exitOrderId := idxOrNull tradeOrderIds 1
        allOrderIds := some tradeOrderIds }
    { db :=
        { trades := acc.db.trades ++ [enhancedTrade]
          orderIds := tradeOrderIds.foldl setAdd acc.db.orderIds }
      newTrades := acc.newTrades + 1
      duplicates := acc.duplicates
      addedTrades := acc.addedTrades ++ [enhancedTrade] }

/-- `mergeTradesWithDatabase(newTrades, newOrders)` acting on a database
value.  (The `orderIdMap` built at the top of the source function is never
consulted by the merge logic and is omitted.) -/
def mergeTradesWithDatabase (db : TradeDB) (newTrades : List STrade)
    (newOrders : List SOrder) : MergeOut :=
  newTrades.foldl (mergeStep newOrders) ⟨db, 0, 0, []⟩

/-- The content fingerprint of `pullTradeDatabase`:
`sym_eTime_xTime_ePrice_xPrice` with the symbol stripped of
non-alphanumerics and prices rounded to cents. -/
def fingerprint (t : STrade) : String :=
  let symSrc := (if osTruthy t.contract then t.contract
    else if osTruthy t.symbol then t.symbol else some "").getD ""
  let sym := String.mk (symSrc.toList.filter (fun c => c.isAlpha || c.isDigit))
  let eTime := t.entryTime.getD 0
  let xTime := t.exitTime.getD 0
  let ePrice := jsRound ((t.entryPrice.getD 0) * 100)
  let xPrice := jsRound ((t.exitPrice.getD 0) * 100)
  s!"{sym}_{eTime}_{xTime}_{ePrice}_{xPrice}"

/-- `[trade.entryOrderId, trade.exitOrderId, ...(trade.allOrderIds || [])]
.filter(Boolean)`. -/
def pullTradeOrderIds (t : STrade) : List String :=
  ((t.entryOrderId.toList ++ t.exitOrderId.toList).filter sTruthy) ++
    ((t.allOrderIds.getD []).filter sTruthy)

/-- State of the `pullTradeDatabase` merge loop. -/
structure PullState where
  localTrades : List STrade
  localIds : List String
  localOrderIds : List String
  localFingerprints : List String
  merged : ℕ
  deriving Repr, DecidableEq

/-- The lookup sets built by `pullTradeDatabase` from the local trades. -/
def initPullState (localTrades : List STrade) : PullState :=
  { localTrades := localTrades
    localIds := (localTrades.filterMap (·.id)).filter sTruthy
    localOrderIds := localTrades.foldl
      (fun acc t =>
        let acc := if osTruthy t.entryOrderId then setAdd acc (t.entryOrderId.getD "") else acc
        let acc := if osTruthy t.exitOrderId then setAdd acc (t.exitOrderId.getD "") else acc
        match t.allOrderIds with
        | some l => l.foldl (fun a oid => if sTruthy oid then setAdd a oid else a) acc
        | none => acc)
      []
    localFingerprints := localTrades.map fingerprint
    merged := 0 }

/-- One iteration of the `for (const trade of remote.trades)` loop of
`pullTradeDatabase`: skip on a known trade id, a tracked order ID, or a
matching fingerprint; otherwise add the trade and track its identities.
(`Set.add(trade.id)` with a null id inserts a member no truthy id lookup can
ever hit, so only present ids are recorded.) -/
def pullStep (st : PullState) (trade : STrade) : PullState :=
  if osTruthy trade.id ∧ (trade.id.getD "") ∈ st.localIds then st
  else
    let tradeOrderIds := pullTradeOrderIds trade
    if ¬ tradeOrderIds.isEmpty ∧ tradeOrderIds.any (fun oid => st.localOrderIds.contains oid) then
      st
    else
      let fp := fingerprint trade
      if fp ∈ st.localFingerprints then st
      else
        { localTrades := st.localTrades ++ [trade]
          localIds := st.localIds ++ trade.id.toList
          localOrderIds := tradeOrderIds.foldl setAdd st.localOrderIds
          localFingerprints := st.localFingerprints ++ [fp]
          merged := st.merged + 1 }

/-- The merge loop of `pullTradeDatabase`: fold the remote trades over the
local state. -/
def pullMergeRemote (localTrades : List STrade) (remoteTrades : List STrade) : PullState :=
  remoteTrades.foldl pullStep (initPullState localTrades)

end Store

namespace Calc

/-- A filled TradingView-style order row used in the concrete test streams. -/
def sampleOrder (sym side : String) (q fp : ℚ) (t : ℤ) (oid : String) : Order :=
  { symbol := sym, side := side, orderType := "Market", qty := q, fillPrice := some fp,
    status := "Filled", placingTime := some t, orderId := oid, commission := some 0,
    margin := none, leverage := "", broker := "TradingView" }

/-- Sorting an already chronologically sorted valid stream is the identity
(`mergeSort` leaves a pairwise-ordered list unchanged). -/
lemma validSorted_eq_filter (orders : List Order)
    (h : (orders.filter validFilter).Pairwise (fun a b => orderLE a b = true)) :
    validSorted orders = orders.filter validFilter :=
  List.mergeSort_of_sorted h

/-- The C2 reference stream: entry `Sell 5 @ 100`, exits
`Buy 2 @ 101`, `Buy 2 @ 102`, `Buy 1 @ 103`, strictly increasing times. -/
def c2Orders : List Order :=
  [ sampleOrder "ES1!" "Sell" 5 100 1 "e1",
    sampleOrder "ES1!" "Buy" 2 101 2 "x1",
    sampleOrder "ES1!" "Buy" 2 102 3 "x2",
    sampleOrder "ES1!" "Buy" 1 103 4 "x3" ]

end Calc

/-- C2: on the reference stream (filled entry `Sell 5 @ 100` followed by
filled exits `Buy 2 @ 101`, `Buy 2 @ 102`, `Buy 1 @ 103` with strictly
increasing placing times), `matchTrades` produces exactly 3 trades, all with
side `SHORT`, with quantities `[2, 2, 1]` and entry price `100` on each, and
the symbol's lot queue is left empty (zero residual open quantity). -/
theorem c2_fifo_reference_stream :
    (Calc.matchTrades Calc.c2Orders).length = 3 ∧
    (Calc.matchTrades Calc.c2Orders).map Calc.Trade.side = ["SHORT", "SHORT", "SHORT"] ∧
    (Calc.matchTrades Calc.c2Orders).map Calc.Trade.quantity = [2, 2, 1] ∧
    (Calc.matchTrades Calc.c2Orders).map Calc.Trade.entryPrice = [100, 100, 100] ∧
    Calc.lookupPos (Calc.matchState Calc.c2Orders).positions "ES1!" = [] ∧
    Calc.residualQty Calc.c2Orders "ES1!" = 0 := by
  have hs : Calc.validSorted Calc.c2Orders = Calc.c2Orders.filter Calc.validFilter :=
    Calc.validSorted_eq_filter Calc.c2Orders (by decide)
  refine ⟨?_, ?_, ?_, ?_, ?_, ?_⟩ <;>
  · simp only [Calc.matchTrades, Calc.matchState, Calc.residualQty, hs]
    norm_num +decide [Calc.c2Orders, Calc.sampleOrder, Calc.validFilter, qTruthy,
      List.filter, List.foldl, Calc.processOrder, Calc.lookupPos, Calc.setPos, List.find?,
      Calc.closeLots, Calc.closeLotsAux, Calc.mkLot, Calc.createTradeObject, Calc.entryCopy,
      Calc.exitCopy, sTruthy, jsOrS, jsMin, Calc.parseMargin, jsOrO, toLowerStr]

namespace Calc

/-- The single long `ES1!` round trip of the C6 example: entry
`Buy 5 @ 6970.75`, exit `Sell 5 @ 6976.75`, blank commissions, no margin. -/
def c6Trade : Trade :=
  createTradeObject
    (sampleOrder "CME_MINI:ES1!" "Buy" 5 (697075/100) 10 "c6e")
    (sampleOrder "CME_MINI:ES1!" "Sell" 5 (697675/100) 20 "c6x")

end Calc

/-- C6: for every priced trade on which the margin/leverage multiplier
correction does not apply (the effective multiplier equals the registry
multiplier), `pointDifference` is `entryPrice - exitPrice` for a short and
`exitPrice - entryPrice` otherwise, and
`grossProfit = pointDifference × quantity × multiplier`; on the concrete
example (`entry 6970.75, exit 6976.75, qty 5, long, ES1!` with multiplier 50
and commission 2.5 per side) this gives `grossProfit = 1500`,
`totalCommission = 25`, `netProfit = 1475` and status `WIN`. -/
theorem c6_pnl_computation :
    (∀ trade : Calc.Trade,
        Calc.effectiveMultiplierOf trade = (Calc.getContractSpecs trade.contract).multiplier →
        ((trade.side = "SHORT" →
            (Calc.calculateTrade trade).pointDifference = trade.entryPrice - trade.exitPrice) ∧
          (trade.side ≠ "SHORT" →
            (Calc.calculateTrade trade).pointDifference = trade.exitPrice - trade.entryPrice) ∧
          (Calc.calculateTrade trade).grossProfit =
            (Calc.calculateTrade trade).pointDifference * trade.quantity *
              (Calc.getContractSpecs trade.contract).multiplier)) ∧
    (Calc.calculateTrade Calc.c6Trade).grossProfit = 1500 ∧
    (Calc.calculateTrade Calc.c6Trade).totalCommission = 25 ∧
    (Calc.calculateTrade Calc.c6Trade).netProfit = 1475 ∧
    (Calc.calculateTrade Calc.c6Trade).status = "WIN" := by
  constructor
  · intro trade heff
    have hpd : (Calc.calculateTrade trade).pointDifference =
        (if (jsOrS trade.side "LONG" == "SHORT") = true then trade.entryPrice - trade.exitPrice
          else trade.exitPrice - trade.entryPrice) := by
      simp only [Calc.calculateTrade]
    have hgp : (Calc.calculateTrade trade).grossProfit =
        (Calc.calculateTrade trade).pointDifference * trade.quantity *
          Calc.effectiveMultiplierOf trade := by
      simp only [Calc.calculateTrade]
    refine ⟨?_, ?_, ?_⟩
    · intro h
      rw [hpd]
      have hb : (jsOrS trade.side "LONG" == "SHORT") = true := by
        rw [h]
        decide
      rw [if_pos hb]
    · intro h
      rw [hpd]
      have hb : (jsOrS trade.side "LONG" == "SHORT") = false := by
        rw [jsOrS]
        by_cases hs : sTruthy trade.side = true
        · rw [if_pos hs]
          exact beq_eq_false_iff_ne.mpr h
        · rw [if_neg hs]
          decide
      rw [hb]
      simp
    · rw [hgp, heff]
  · have hstrip : stripExchTag "CME_MINI:ES1!" = "ES1!" := by decide
    have hspec : Calc.getContractSpecs "ES1!" = ⟨50, 5/2, "E-mini S&P 500"⟩ := by rfl
    refine ⟨?_, ?_, ?_, ?_⟩ <;>
    · norm_num +decide [Calc.calculateTrade, Calc.effectiveMultiplierOf, hstrip, hspec,
        Calc.c6Trade, Calc.createTradeObject, Calc.sampleOrder, Calc.parseMargin, jsOrO,
        jsOrS, sTruthy, Calc.jsOrQn, firstDigitRun, toLowerStr]

namespace Calc

/-- The C7 counterexample trade: the entry leg's commission field is absent
(`undefined`), the exit leg carries commission 7, and the contract is unknown
to the registry (fallback commission 0). -/
def c7Bad : Trade :=
  createTradeObject
    { sampleOrder "ZZZQ" "Buy" 1 100 10 "b1" with commission := none }
    { sampleOrder "ZZZQ" "Sell" 1 105 20 "s1" with commission := some 7 }

/-- The C7 apportionment stream: parent entry `Buy 10 @ 100` with commission
10, split by exits `Sell 6 @ 101` and `Sell 4 @ 102` with commission 0. -/
def c7Orders : List Order :=
  [ { sampleOrder "ES1!" "Buy" 10 100 1 "p" with commission := some 10 },
    sampleOrder "ES1!" "Sell" 6 101 2 "x1",
    sampleOrder "ES1!" "Sell" 4 102 3 "x2" ]

end Calc

/-- C7 counterexample: a trade whose exit leg carries a non-zero commission
(7) while the entry leg's commission field is absent.  The claim's formula
gives `0·(1/1) + 7·(1/1) = 7`, but `calculateTrade` takes the registry
fallback (0) because the branch additionally requires the entry order's
commission field to be present. -/
theorem c7_counterexample :
    (0 < Calc.c7Bad.exitOrder.commission.getD 0) ∧
    Calc.c7Bad.entryOrder.commission.getD 0 *
        (Calc.c7Bad.quantity / Calc.jsOrQn Calc.c7Bad.entryOrder.originalQty Calc.c7Bad.quantity) +
      Calc.c7Bad.exitOrder.commission.getD 0 *
        (Calc.c7Bad.quantity / Calc.jsOrQn Calc.c7Bad.exitOrder.originalQty Calc.c7Bad.quantity) = 7 ∧
    (Calc.calculateTrade Calc.c7Bad).totalCommission = 0 ∧
    (Calc.calculateTrade Calc.c7Bad).totalCommission ≠
      Calc.c7Bad.entryOrder.commission.getD 0 *
          (Calc.c7Bad.quantity / Calc.jsOrQn Calc.c7Bad.entryOrder.originalQty Calc.c7Bad.quantity) +
        Calc.c7Bad.exitOrder.commission.getD 0 *
          (Calc.c7Bad.quantity / Calc.jsOrQn Calc.c7Bad.exitOrder.originalQty Calc.c7Bad.quantity) := by
  have hstrip : stripExchTag "ZZZQ" = "ZZZQ" := by decide
  have hspec : Calc.getContractSpecs "ZZZQ" = Calc.DEFAULT_SPECS := by rfl
  refine ⟨?_, ?_, ?_, ?_⟩ <;>
  · norm_num +decide [Calc.calculateTrade, hstrip, hspec, Calc.DEFAULT_SPECS, Calc.c7Bad,
      Calc.createTradeObject, Calc.sampleOrder, Calc.parseMargin, jsOrO, jsOrS, sTruthy,
      Calc.jsOrQn, Calc.effectiveMultiplierOf, firstDigitRun, toLowerStr]

/-- Witness for C6: the general P&L statement applied to the concrete long
trade, with the no-correction hypothesis discharged. -/
theorem c6_pnl_computation_witness :
    (Calc.calculateTrade Calc.c6Trade).pointDifference =
      Calc.c6Trade.exitPrice - Calc.c6Trade.entryPrice :=
  (c6_pnl_computation.1 Calc.c6Trade
      (by
        have hstrip : stripExchTag "CME_MINI:ES1!" = "ES1!" := by decide
        norm_num +decide [Calc.effectiveMultiplierOf, hstrip, Calc.c6Trade,
          Calc.createTradeObject, Calc.sampleOrder, Calc.parseMargin, jsOrO, jsOrS,
          sTruthy, Calc.jsOrQn, firstDigitRun, toLowerStr])).2.1
    (by decide)

namespace Calc

/-- A qty-6 slice of the C7 parent order (commission 10, original qty 10)
against a commission-0 exit, as the matcher's copies would carry it. -/
def c7wTrade : Trade :=
  createTradeObject
    { sampleOrder "ES1!" "Buy" 6 100 1 "p" with commission := some 10, originalQty := some 10 }
    { sampleOrder "ES1!" "Sell" 6 101 2 "x1" with originalQty := some 6 }

end Calc

/-- C7 (amended): when the entry order's commission field is present and
either leg carries a non-zero commission value, `totalCommission` equals
`entryCommission × (quantity / entryOriginalQuantity) +
exitCommission × (quantity / exitOriginalQuantity)`; otherwise it equals
`registryCommissionPerSide × 2 × quantity`.  Consequently the parent order
with qty 10 and commission 10, split by the matcher into trades of qty 6 and
qty 4, is apportioned 6 and 4 — summing exactly to 10. -/
theorem c7_commission_apportionment :
    (∀ trade : Calc.Trade,
        trade.entryOrder.commission.isSome = true →
        (0 < trade.entryOrder.commission.getD 0 ∨ 0 < trade.exitOrder.commission.getD 0) →
        (Calc.calculateTrade trade).totalCommission =
          trade.entryOrder.commission.getD 0 *
              (trade.quantity / Calc.jsOrQn trade.entryOrder.originalQty trade.quantity) +
            trade.exitOrder.commission.getD 0 *
              (trade.quantity / Calc.jsOrQn trade.exitOrder.originalQty trade.quantity)) ∧
    (∀ trade : Calc.Trade,
        ¬ (trade.entryOrder.commission.isSome = true ∧
            (0 < trade.entryOrder.commission.getD 0 ∨ 0 < trade.exitOrder.commission.getD 0)) →
        (Calc.calculateTrade trade).totalCommission =
          (Calc.getContractSpecs trade.contract).commission * 2 * trade.quantity) ∧
    ((Calc.matchTrades Calc.c7Orders).map Calc.Trade.quantity = [6, 4]) ∧
    ((Calc.matchTrades Calc.c7Orders).map (fun t => (Calc.calculateTrade t).totalCommission)
      = [6, 4]) := by
  refine ⟨?_, ?_, ?_, ?_⟩
  · intro trade h1 h2
    simp only [Calc.calculateTrade]
    rw [if_pos ⟨h1, h2⟩]
  · intro trade h
    simp only [Calc.calculateTrade]
    rw [if_neg h]
  · have hs : Calc.validSorted Calc.c7Orders = Calc.c7Orders.filter Calc.validFilter :=
      Calc.validSorted_eq_filter Calc.c7Orders (by decide)
    simp only [Calc.matchTrades, Calc.matchState, hs]
    norm_num +decide [Calc.c7Orders, Calc.sampleOrder, Calc.validFilter, qTruthy,
      List.filter, List.foldl, Calc.processOrder, Calc.lookupPos, Calc.setPos, List.find?,
      Calc.closeLots, Calc.closeLotsAux, Calc.mkLot, Calc.createTradeObject, Calc.entryCopy,
      Calc.exitCopy, sTruthy, jsOrS, jsMin, Calc.parseMargin, jsOrO, toLowerStr]
  · have hs : Calc.validSorted Calc.c7Orders = Calc.c7Orders.filter Calc.validFilter :=
      Calc.validSorted_eq_filter Calc.c7Orders (by decide)
    have hstrip : stripExchTag "ES1!" = "ES1!" := by decide
    have hspec : Calc.getContractSpecs "ES1!" = ⟨50, 5/2, "E-mini S&P 500"⟩ := by rfl
    simp only [Calc.matchTrades, Calc.matchState, hs]
    norm_num +decide [Calc.c7Orders, Calc.sampleOrder, Calc.validFilter, qTruthy,
      List.filter, List.foldl, Calc.processOrder, Calc.lookupPos, Calc.setPos, List.find?,
      Calc.closeLots, Calc.closeLotsAux, Calc.mkLot, Calc.createTradeObject, Calc.entryCopy,
      Calc.exitCopy, sTruthy, jsOrS, jsMin, Calc.parseMargin, jsOrO, toLowerStr,
      Calc.calculateTrade, Calc.effectiveMultiplierOf, hstrip, hspec, Calc.jsOrQn,
      firstDigitRun]

/-- Witness for C7: the per-order commission branch applied to the qty-6
slice of the commission-10 parent order. -/
theorem c7_commission_apportionment_witness :
    (Calc.calculateTrade Calc.c7wTrade).totalCommission =
      Calc.c7wTrade.entryOrder.commission.getD 0 *
          (Calc.c7wTrade.quantity /
            Calc.jsOrQn Calc.c7wTrade.entryOrder.originalQty Calc.c7wTrade.quantity) +
        Calc.c7wTrade.exitOrder.commission.getD 0 *
          (Calc.c7wTrade.quantity /
            Calc.jsOrQn Calc.c7wTrade.exitOrder.originalQty Calc.c7wTrade.quantity) :=
  c7_commission_apportionment.1 Calc.c7wTrade (by decide) (Or.inl (by decide))

namespace Store

/-- A trade with no resolvable identity: no direct or nested order IDs, no
structured id, and (against an empty order list) no fuzzy candidates. -/
def noIdTrade : STrade :=
  { id := none, entryOrderId := none, exitOrderId := none,
    entryOrderRefId := none, exitOrderRefId := none, allOrderIds := none,
    entryTime := some 1000, exitTime := some 2000,
    entryPrice := some 100, exitPrice := some 101,
    contract := some "ES1!", symbol := none }

/-- The same trade carrying direct order IDs. -/
def idTrade : STrade :=
  { noIdTrade with entryOrderId := some "e1", exitOrderId := some "x1" }

/-- The empty trade database. -/
def emptyDB : TradeDB := ⟨[], []⟩

lemma mem_setAdd {s : List String} {x y : String} :
    y ∈ setAdd s x ↔ y = x ∨ y ∈ s := by
  rw [setAdd]
  split
  · rename_i h
    constructor
    · exact fun hy => Or.inr hy
    · rintro (rfl | hy)
      · exact h
      · exact hy
  · rw [List.mem_append, List.mem_singleton, or_comm]

lemma mem_foldl_setAdd_of_mem (ids : List String) :
    ∀ (s : List String) (x : String), x ∈ s → x ∈ ids.foldl setAdd s := by
  induction ids with
  | nil => intro s x h; exact h
  | cons i rest ih =>
    intro s x h
    exact ih (setAdd s i) x (mem_setAdd.mpr (Or.inr h))

lemma mem_foldl_setAdd_self (ids : List String) :
    ∀ (s : List String) (x : String), x ∈ ids → x ∈ ids.foldl setAdd s := by
  induction ids with
  | nil => intro s x h; cases h
  | cons i rest ih =>
    intro s x h
    rcases List.mem_cons.mp h with rfl | h
    · exact mem_foldl_setAdd_of_mem rest (setAdd s x) x (mem_setAdd.mpr (Or.inl rfl))
    · exact ih (setAdd s i) x h

lemma mergeStep_orderIds_mono (os : List SOrder) (acc : MergeOut) (t : STrade)
    (x : String) (h : x ∈ acc.db.orderIds) : x ∈ (mergeStep os acc t).db.orderIds := by
  rw [mergeStep]
  split
  · exact h
  · split
    · exact h
    · exact mem_foldl_setAdd_of_mem _ _ _ h

lemma mergeFold_orderIds_mono (os : List SOrder) (ts : List STrade) :
    ∀ (acc : MergeOut) (x : String), x ∈ acc.db.orderIds →
      x ∈ (ts.foldl (mergeStep os) acc).db.orderIds := by
  induction ts with
  | nil => intro acc x h; exact h
  | cons t rest ih =>
    intro acc x h
    exact ih (mergeStep os acc t) x (mergeStep_orderIds_mono os acc t x h)

/-- After a merge, every trade with at least one resolvable order ID has one
of its resolved IDs in the database's tracked set. -/
lemma mergeFold_resolves (os : List SOrder) (ts : List STrade) :
    ∀ (acc : MergeOut) (t : STrade), t ∈ ts →
      extractTradeOrderIds t os ≠ [] →
      ∃ i ∈ extractTradeOrderIds t os, i ∈ (ts.foldl (mergeStep os) acc).db.orderIds := by
  induction ts with
  | nil => intro acc t h; cases h
  | cons t0 rest ih =>
    intro acc t hmem hne
    rcases List.mem_cons.mp hmem with rfl | hmem
    · -- the head trade is handled by this very step
      simp only [List.foldl_cons]
      by_cases hdup : (extractTradeOrderIds t os).any
          (fun oid => acc.db.orderIds.contains oid) = true
      · rcases List.any_eq_true.mp hdup with ⟨i, hi, hic⟩
        refine ⟨i, hi, ?_⟩
        apply mergeFold_orderIds_mono
        apply mergeStep_orderIds_mono
        simpa using hic
      · obtain ⟨i, hi⟩ := List.exists_mem_of_ne_nil _ hne
        refine ⟨i, hi, ?_⟩
        apply mergeFold_orderIds_mono
        rw [mergeStep]
        rw [if_neg (by simpa using hne)]
        rw [if_neg (by simpa using hdup)]
        exact mem_foldl_setAdd_self _ _ _ hi
    · exact ih (mergeStep os acc t0) t hmem hne

/-- If every trade already hits a tracked order ID, the merge adds nothing. -/
lemma mergeFold_all_dup (os : List SOrder) (ts : List STrade) :
    ∀ (acc : MergeOut),
      (∀ t ∈ ts, extractTradeOrderIds t os ≠ [] ∧
        ∃ i ∈ extractTradeOrderIds t os, i ∈ acc.db.orderIds) →
      (ts.foldl (mergeStep os) acc).newTrades = acc.newTrades := by
  induction ts with
  | nil => intro acc _; rfl
  | cons t0 rest ih =>
    intro acc h
    obtain ⟨hne, i, hi, hmem⟩ := h t0 (List.mem_cons_self t0 rest)
    have hdup : (extractTradeOrderIds t0 os).any
        (fun oid => acc.db.orderIds.contains oid) = true :=
      List.any_eq_true.mpr ⟨i, hi, by simpa using hmem⟩
    have hstep : mergeStep os acc t0 = { acc with duplicates := acc.duplicates + 1 } := by
      rw [mergeStep]
      rw [if_neg (by simpa using hne)]
      rw [if_pos hdup]
    simp only [List.foldl_cons, hstep]
    exact ih _ (fun t ht => by
      obtain ⟨hne', j, hj, hmem'⟩ := h t (List.mem_cons_of_mem t0 ht)
      exact ⟨hne', j, hj, hmem'⟩)

end Store

/-- C1 counterexample: against the already-updated store, merging the same
single trade with zero resolvable order IDs a second time yields
`newCount = 1`, not `0` — such trades are re-added on every merge. -/
theorem c1_counterexample :
    Store.extractTradeOrderIds Store.noIdTrade [] = [] ∧
    (Store.mergeTradesWithDatabase
        (Store.mergeTradesWithDatabase Store.emptyDB [Store.noIdTrade] []).db
        [Store.noIdTrade] []).newTrades = 1 := by
  constructor
  · decide
  · decide

/-- C1 (amended): running `merge` a second time with the same
`(newTrades, newOrders)` against the already-updated store yields
`newCount = 0` provided every input trade has at least one resolvable order
ID; a trade with zero resolvable order IDs is added again on every merge
(see the counterexample). -/
theorem c1_merge_idempotent_for_id_resolvable
    (db : Store.TradeDB) (newTrades : List Store.STrade) (newOrders : List Store.SOrder)
    (h : ∀ t ∈ newTrades, Store.extractTradeOrderIds t newOrders ≠ []) :
    (Store.mergeTradesWithDatabase
        (Store.mergeTradesWithDatabase db newTrades newOrders).db
        newTrades newOrders).newTrades = 0 := by
  rw [Store.mergeTradesWithDatabase]
  rw [Store.mergeFold_all_dup]
  intro t ht
  refine ⟨h t ht, ?_⟩
  exact Store.mergeFold_resolves newOrders newTrades _ t ht (h t ht)

/-- Witness for C1 (amended): the second merge of a trade carrying direct
order IDs adds nothing. -/
theorem c1_merge_idempotent_for_id_resolvable_witness :
    (Store.mergeTradesWithDatabase
        (Store.mergeTradesWithDatabase Store.emptyDB [Store.idTrade] []).db
        [Store.idTrade] []).newTrades = 0 :=
  c1_merge_idempotent_for_id_resolvable Store.emptyDB [Store.idTrade] []
    (by decide)

namespace Store

/-- A stored trade with no order IDs and no trade id, identified only by its
content (symbol, times, prices). -/
def c9Trade : STrade :=
  { id := none, entryOrderId := none, exitOrderId := none,
    entryOrderRefId := none, exitOrderRefId := none, allOrderIds := none,
    entryTime := some 5000, exitTime := some 6000,
    entryPrice := some (101/1), exitPrice := some (102/1),
    contract := some "NQ1!", symbol := none }

/-- A second trade with the same fingerprint content as `c9Trade`. -/
def c9Twin : STrade := c9Trade

end Store

/-- C9: two trades with identical contract/symbol, entry/exit timestamps and
entry/exit prices but no resolvable order IDs and no truthy trade id are
recognized as duplicates across merges via the content fingerprint: after
the first pull merges `t1`, pulling `t2` merges nothing and leaves the
stored trades unchanged. -/
theorem c9_fingerprint_dedup
    (localTrades : List Store.STrade) (t1 t2 : Store.STrade)
    (h1ids : Store.pullTradeOrderIds t1 = []) (h1id : osTruthy t1.id = false)
    (h2ids : Store.pullTradeOrderIds t2 = []) (h2id : osTruthy t2.id = false)
    (hsym : t2.contract = t1.contract) (hsym2 : t2.symbol = t1.symbol)
    (het : t2.entryTime = t1.entryTime) (hxt : t2.exitTime = t1.exitTime)
    (hep : t2.entryPrice = t1.entryPrice) (hxp : t2.exitPrice = t1.exitPrice) :
    (Store.pullMergeRemote
        (Store.pullMergeRemote localTrades [t1]).localTrades [t2]).merged = 0 ∧
    (Store.pullMergeRemote
        (Store.pullMergeRemote localTrades [t1]).localTrades [t2]).localTrades =
      (Store.pullMergeRemote localTrades [t1]).localTrades := by
  have hfp : Store.fingerprint t2 = Store.fingerprint t1 := by
    simp only [Store.fingerprint, hsym, hsym2, het, hxt, hep, hxp]
  have hmem : Store.fingerprint t1 ∈
      ((Store.pullMergeRemote localTrades [t1]).localTrades.map Store.fingerprint) := by
    rw [Store.pullMergeRemote]
    simp only [List.foldl_cons, List.foldl_nil]
    rw [Store.pullStep]
    rw [if_neg (by simp [h1id])]
    rw [h1ids]
    rw [if_neg (by simp)]
    dsimp only
    split
    · rename_i hin
      simpa [Store.initPullState] using hin
    · simp [Store.initPullState]
  have hrun : Store.pullMergeRemote
      (Store.pullMergeRemote localTrades [t1]).localTrades [t2] =
      Store.initPullState (Store.pullMergeRemote localTrades [t1]).localTrades := by
    rw [Store.pullMergeRemote]
    simp only [List.foldl_cons, List.foldl_nil]
    rw [Store.pullStep]
    rw [if_neg (by simp [h2id])]
    rw [h2ids]
    rw [if_neg (by simp)]
    dsimp only
    rw [if_pos (by simpa [Store.initPullState, hfp] using hmem)]
  rw [hrun]
  exact ⟨rfl, rfl⟩

/-- Witness for C9: pulling the no-ID trade a second time, after it was
merged, adds nothing. -/
theorem c9_fingerprint_dedup_witness :
    (Store.pullMergeRemote
        (Store.pullMergeRemote [] [Store.c9Trade]).localTrades [Store.c9Twin]).merged = 0 :=
  (c9_fingerprint_dedup [] Store.c9Trade Store.c9Twin
      (by decide) (by decide) (by decide) (by decide)
      rfl rfl rfl rfl rfl rfl).1

namespace Calc

/-- A minimal winning priced trade used to witness the profit-factor
boundary. -/
def c8Win : CalculatedTrade :=
  { toTrade := createTradeObject (sampleOrder "ES1!" "Buy" 1 100 1 "w1")
      (sampleOrder "ES1!" "Sell" 1 101 2 "w2")
    pointDifference := 1, grossProfit := 50, totalCommission := 25, netProfit := 10,
    returnValue := 10, status := "WIN", isWin := true, commissionRate := 5/2,
    currency := "USD", entryOrderId := "w1", exitOrderId := "w2" }

end Calc

/-- C8: the summary's profit factor is `grossWinSum / |grossLossSum|` when
the losing side is non-zero, `+∞` when the trade set is non-empty,
all-winning (each trade's win flag consistent with its net profit) and has
no losing trades, and the empty trade list yields the all-zero summary
(`profitFactor = 0`, no missing fields) without any error — the function is
total. -/
theorem c8_profit_factor_boundary :
    (∀ trades : List Calc.CalculatedTrade, trades ≠ [] →
        0 < jsAbs (((trades.filter (fun t => !t.isWin)).map (fun t => t.netProfit)).sum) →
        (Calc.generateSummary trades).profitFactor =
          Calc.PFVal.fin
            ((((trades.filter (fun t => t.isWin)).map (fun t => t.netProfit)).sum) /
              jsAbs (((trades.filter (fun t => !t.isWin)).map (fun t => t.netProfit)).sum))) ∧
    (∀ trades : List Calc.CalculatedTrade, trades ≠ [] →
        (∀ t ∈ trades, t.isWin = decide (0 < t.netProfit)) →
        (∀ t ∈ trades, t.isWin = true) →
        (Calc.generateSummary trades).profitFactor = Calc.PFVal.inf) ∧
    (Calc.generateSummary [] = Calc.getEmptySummary ∧
      Calc.getEmptySummary.profitFactor = Calc.PFVal.fin 0 ∧
      Calc.getEmptySummary.totalTrades = 0 ∧
      Calc.getEmptySummary.totalProfit = 0 ∧
      Calc.getEmptySummary.winRate = 0 ∧
      Calc.getEmptySummary.bestTrade = 0 ∧
      Calc.getEmptySummary.worstTrade = 0 ∧
      Calc.getEmptySummary.maxDrawdown = 0 ∧
      Calc.getEmptySummary.sharpeRatio = 0 ∧
      Calc.getEmptySummary.dateRange = none) := by
  refine ⟨?_, ?_, ?_⟩
  · intro trades h0 hl
    rw [Calc.generateSummary, if_neg (by simpa using h0)]
    dsimp only
    rw [Calc.calculateProfitFactor]
    rw [if_pos hl]
  · intro trades h0 hcons hwin
    have hlosers : trades.filter (fun t => !t.isWin) = [] := by
      rw [List.filter_eq_nil_iff]
      intro a ha
      simp [hwin a ha]
    have hwinners : trades.filter (fun t => t.isWin) = trades :=
      List.filter_eq_self.mpr (fun a ha => by simpa using hwin a ha)
    rw [Calc.generateSummary, if_neg (by simpa using h0)]
    dsimp only
    rw [Calc.calculateProfitFactor]
    rw [hlosers, hwinners]
    have habs : jsAbs (([] : List Calc.CalculatedTrade).map (fun t => t.netProfit)).sum = 0 := by
      norm_num [jsAbs]
    rw [habs]
    rw [if_neg (by norm_num)]
    rw [if_pos ?pos]
    case pos =>
      apply List.sum_pos
      · intro x hx
        rcases List.mem_map.mp hx with ⟨t, ht, rfl⟩
        have h1 := hcons t ht
        have h2 := hwin t ht
        rw [h2] at h1
        exact of_decide_eq_true h1.symm
      · simpa using h0
  · exact ⟨rfl, rfl, rfl, rfl, rfl, rfl, rfl, rfl, rfl, rfl⟩

/-- Witness for C8: a singleton all-winning trade list yields profit factor
`+∞`. -/
theorem c8_profit_factor_boundary_witness :
    (Calc.generateSummary [Calc.c8Win]).profitFactor = Calc.PFVal.inf :=
  c8_profit_factor_boundary.2.1 [Calc.c8Win] (by simp)
    (by
      intro t ht
      rw [List.mem_singleton.mp ht]
      decide)
    (by
      intro t ht
      rw [List.mem_singleton.mp ht]
      rfl)

namespace Calc

/-- `entryCopy` reads only the lot's originating order, so a qty-adjusted
lot produces the same entry copy. -/
lemma entryCopy_qty_irrel (lot : Lot) (q c : ℚ) :
    entryCopy { lot with qty := q } c = entryCopy lot c := rfl

/-- Every trade emitted by the closing loop is `createTradeObject` of a
qty-adjusted copy of some queued lot's originating order against a
qty-adjusted copy of the closing order. -/
lemma closeLotsAux_trade_shape (order : Order) :
    ∀ (fuel : ℕ) (rem : ℚ) (pos : List Lot) (t : Trade),
      t ∈ (closeLotsAux order fuel rem pos).1 →
      ∃ lot c, lot ∈ pos ∧ t = createTradeObject (entryCopy lot c) (exitCopy order c) := by
  intro fuel
  induction fuel with
  | zero =>
    intro rem pos t ht
    simp [closeLotsAux] at ht
  | succ f ih =>
    intro rem pos t ht
    cases pos with
    | nil => simp [closeLotsAux] at ht
    | cons lot rest =>
      rw [closeLotsAux] at ht
      by_cases hrem : rem ≤ 0
      · rw [if_pos hrem] at ht
        simp at ht
      · rw [if_neg hrem] at ht
        dsimp only at ht
        split at ht
        · rcases List.mem_cons.mp ht with rfl | ht
          · exact ⟨lot, jsMin rem lot.qty, List.mem_cons_self lot rest, rfl⟩
          · obtain ⟨lot', c, hlot', rfl⟩ := ih _ _ t ht
            exact ⟨lot', c, List.mem_cons_of_mem lot hlot', rfl⟩
        · rcases List.mem_cons.mp ht with rfl | ht
          · exact ⟨lot, jsMin rem lot.qty, List.mem_cons_self lot rest, rfl⟩
          · obtain ⟨lot', c, hlot', rfl⟩ := ih _ _ t ht
            rcases List.mem_cons.mp hlot' with rfl | hlot'
            · exact ⟨lot, c, List.mem_cons_self lot rest,
                by rw [entryCopy_qty_irrel]⟩
            · exact ⟨lot', c, List.mem_cons_of_mem lot hlot', rfl⟩

/-- Every trade present after one `processOrder` step is an old trade or a
`createTradeObject` result. -/
lemma processOrder_trade_shape (st : MatchState) (o : Order) (t : Trade)
    (ht : t ∈ (processOrder st o).trades) :
    t ∈ st.trades ∨ ∃ e x, t = createTradeObject e x := by
  rw [processOrder] at ht
  split at ht
  · exact Or.inl ht
  · try dsimp only at ht
    split at ht
    · exact Or.inl ht
    · try dsimp only at ht
      split at ht
      · exact Or.inl ht
      · rcases List.mem_append.mp ht with h | h
        · exact Or.inl h
        · obtain ⟨lot, c, _, rfl⟩ := closeLotsAux_trade_shape o _ _ _ t h
          exact Or.inr ⟨entryCopy lot c, exitCopy o c, rfl⟩

/-- Every trade produced by the matcher is a `createTradeObject` result. -/
lemma matchTrades_shape (orders : List Order) (t : Trade)
    (ht : t ∈ matchTrades orders) : ∃ e x, t = createTradeObject e x := by
  rw [matchTrades, matchState] at ht
  have : ∀ (l : List Order) (st : MatchState),
      (∀ u ∈ st.trades, ∃ e x, u = createTradeObject e x) →
      ∀ u ∈ (l.foldl processOrder st).trades, ∃ e x, u = createTradeObject e x := by
    intro l
    induction l with
    | nil => intro st h u hu; exact h u hu
    | cons o rest ih =>
      intro st h u hu
      refine ih (processOrder st o) ?_ u hu
      intro v hv
      rcases processOrder_trade_shape st o v hv with hold | hnew
      · exact h v hold
      · exact hnew
  exact this (validSorted orders) ⟨[], []⟩ (by intro u hu; cases hu) t ht

/-- The C3 concrete stream: a long entry closed by a later sell. -/
def c3Orders : List Order :=
  [ sampleOrder "NQ1!" "Buy" 1 100 1 "c3a", sampleOrder "NQ1!" "Sell" 1 105 2 "c3b" ]

/-- The single trade the matcher produces on `c3Orders`. -/
def c3TheTrade : Trade :=
  createTradeObject
    (entryCopy (mkLot (sampleOrder "NQ1!" "Buy" 1 100 1 "c3a")) 1)
    (exitCopy (sampleOrder "NQ1!" "Sell" 1 105 2 "c3b") 1)

end Calc

/-- C3: for every trade the matcher emits, the side is `LONG` precisely when
the originating order preserved on the closed FIFO lot (carried as the
trade's `entryOrder`) has side `buy` (case-insensitively), and `SHORT`
otherwise — for arbitrary input streams, hence also across interleaved
partial fills and scaling. -/
theorem c3_side_attribution (orders : List Calc.Order) (t : Calc.Trade)
    (ht : t ∈ Calc.matchTrades orders) :
    (t.side = "LONG" ↔ toLowerStr t.entryOrder.side = "buy") ∧
    (t.side = "SHORT" ↔ toLowerStr t.entryOrder.side ≠ "buy") := by
  obtain ⟨e, x, rfl⟩ := Calc.matchTrades_shape orders t ht
  have hside : (Calc.createTradeObject e x).side =
      (if (toLowerStr e.side == "buy") = true then "LONG" else "SHORT") := rfl
  have hentry : (Calc.createTradeObject e x).entryOrder = e := rfl
  rw [hside, hentry]
  by_cases h : (toLowerStr e.side == "buy") = true
  · rw [if_pos h]
    have he : toLowerStr e.side = "buy" := by simpa using h
    constructor
    · exact ⟨fun _ => he, fun _ => rfl⟩
    · constructor
      · intro hc; exact absurd hc (by decide)
      · intro hc; exact absurd he hc
  · rw [if_neg h]
    have he : ¬ toLowerStr e.side = "buy" := by simpa using h
    constructor
    · constructor
      · intro hc; exact absurd hc (by decide)
      · intro hc; exact absurd hc he
    · exact ⟨fun _ => he, fun _ => rfl⟩

/-- Witness for C3: the single short-free long trade of the concrete stream
satisfies the side characterization. -/
theorem c3_side_attribution_witness :
    Calc.c3TheTrade.side = "LONG" ↔ toLowerStr Calc.c3TheTrade.entryOrder.side = "buy" :=
  (c3_side_attribution Calc.c3Orders Calc.c3TheTrade
    (by
      have hs : Calc.validSorted Calc.c3Orders = Calc.c3Orders.filter Calc.validFilter :=
        Calc.validSorted_eq_filter Calc.c3Orders (by decide)
      simp only [Calc.matchTrades, Calc.matchState, hs]
      norm_num +decide [Calc.c3Orders, Calc.c3TheTrade, Calc.sampleOrder, Calc.validFilter,
        qTruthy, List.filter, List.foldl, Calc.processOrder, Calc.lookupPos, Calc.setPos,
        List.find?, Calc.closeLots, Calc.closeLotsAux, Calc.mkLot, Calc.createTradeObject,
        Calc.entryCopy, Calc.exitCopy, sTruthy, jsOrS, jsMin, Calc.parseMargin, jsOrO,
        toLowerStr])).1

namespace Calc

/-- The millisecond time an order sorts by (`null` coerces to 0). -/
def orderTime (o : Order) : ℤ := o.placingTime.getD 0

lemma orderLE_time_le {a b : Order} (h : orderLE a b = true) :
    orderTime a ≤ orderTime b := by
  simp only [orderLE, Bool.or_eq_true, Bool.and_eq_true, decide_eq_true_eq,
    beq_iff_eq] at h
  rcases h with h | ⟨h, _⟩
  · exact le_of_lt h
  · exact le_of_eq h

lemma orderLE_trans : ∀ (a b c : Order),
    orderLE a b → orderLE b c → orderLE a c := by
  intro a b c hab hbc
  simp only [orderLE, Bool.or_eq_true, Bool.and_eq_true, decide_eq_true_eq,
    beq_iff_eq] at hab hbc ⊢
  rcases hab with h1 | ⟨h1, h1'⟩ <;> rcases hbc with h2 | ⟨h2, h2'⟩
  · exact Or.inl (lt_trans h1 h2)
  · exact Or.inl (h2 ▸ h1)
  · exact Or.inl (h1 ▸ h2)
  · exact Or.inr ⟨h1.trans h2, le_trans h1' h2'⟩

lemma orderLE_total : ∀ (a b : Order), orderLE a b || orderLE b a := by
  intro a b
  simp only [orderLE, Bool.or_eq_true, Bool.and_eq_true, decide_eq_true_eq,
    beq_iff_eq]
  rcases lt_trichotomy (a.placingTime.getD 0) (b.placingTime.getD 0) with h | h | h
  · exact Or.inl (Or.inl h)
  · rcases le_total (a.fillPrice.getD 0) (b.fillPrice.getD 0) with hp | hp
    · exact Or.inl (Or.inr ⟨h, hp⟩)
    · exact Or.inr (Or.inr ⟨h.symm, hp⟩)
  · exact Or.inr (Or.inl h)

/-- Entry never after exit, with both present. -/
def TP (t : Trade) : Prop :=
  ∃ a b : ℤ, t.entryTime = some a ∧ t.exitTime = some b ∧ a ≤ b

/-- Every queued lot's originating order has a present placing time no later
than any still-unprocessed order's. -/
def lotsOK (st : MatchState) (l : List Order) : Prop :=
  ∀ p ∈ st.positions, ∀ lot ∈ p.2, lot.order.placingTime.isSome = true ∧
    ∀ o ∈ l, orderTime lot.order ≤ orderTime o

lemma lotsOK_weaken {st : MatchState} {l : List Order} {o : Order}
    (h : lotsOK st (o :: l)) : lotsOK st l :=
  fun p hp lot hl =>
    ⟨(h p hp lot hl).1, fun o' ho' => (h p hp lot hl).2 o' (List.mem_cons_of_mem _ ho')⟩

lemma setPos_mem {positions : List (String × List Lot)} {sym : String}
    {q : List Lot} {r : String × List Lot} (h : r ∈ setPos positions sym q) :
    r ∈ positions ∨ r.2 = q := by
  rw [setPos] at h
  split at h
  · rcases List.mem_map.mp h with ⟨p, hp, hr⟩
    by_cases hps : (p.1 == sym) = true
    · right
      rw [← hr, if_pos hps]
    · left
      rw [← hr, if_neg hps]
      exact hp
  · rcases List.mem_append.mp h with h | h
    · exact Or.inl h
    · right
      rw [List.mem_singleton.mp h]

lemma lookupPos_sub {positions : List (String × List Lot)} {sym : String}
    {lot : Lot} (h : lot ∈ lookupPos positions sym) :
    ∃ r ∈ positions, lot ∈ r.2 := by
  rw [lookupPos] at h
  cases hf : positions.find? (fun p => p.1 == sym) with
  | none => rw [hf] at h; simp at h
  | some r =>
    rw [hf] at h
    simp at h
    exact ⟨r, List.mem_of_find?_eq_some hf, h⟩

/-- Every lot surviving the closing loop originates from a lot of the input
queue (only quantities are adjusted). -/
lemma closeLotsAux_lots_orders (order : Order) :
    ∀ (fuel : ℕ) (rem : ℚ) (pos : List Lot) (lot' : Lot),
      lot' ∈ (closeLotsAux order fuel rem pos).2.2 →
      ∃ lot ∈ pos, lot'.order = lot.order := by
  intro fuel
  induction fuel with
  | zero =>
    intro rem pos lot' h
    simp only [closeLotsAux] at h
    exact ⟨lot', h, rfl⟩
  | succ f ih =>
    intro rem pos lot' h
    cases pos with
    | nil => simp [closeLotsAux] at h
    | cons lot rest =>
      rw [closeLotsAux] at h
      by_cases hrem : rem ≤ 0
      · rw [if_pos hrem] at h
        exact ⟨lot', h, rfl⟩
      · rw [if_neg hrem] at h
        dsimp only at h
        split at h
        · obtain ⟨lot0, h0, he⟩ := ih _ _ lot' h
          exact ⟨lot0, List.mem_cons_of_mem lot h0, he⟩
        · obtain ⟨lot0, h0, he⟩ := ih _ _ lot' h
          rcases List.mem_cons.mp h0 with rfl | h0
          · exact ⟨lot, List.mem_cons_self lot rest, he⟩
          · exact ⟨lot0, List.mem_cons_of_mem lot h0, he⟩

/-- One matcher step preserves the queue invariant and the emitted trades'
time ordering. -/
lemma processOrder_preserves (st : MatchState) (o : Order) (l : List Order)
    (hlots : lotsOK st (o :: l))
    (hosome : o.placingTime.isSome = true)
    (hof : ∀ o' ∈ l, orderLE o o' = true)
    (htr : ∀ t ∈ st.trades, TP t) :
    lotsOK (processOrder st o) l ∧ (∀ t ∈ (processOrder st o).trades, TP t) := by
  have holater : ∀ o' ∈ l, orderTime o ≤ orderTime o' :=
    fun o' h => orderLE_time_le (hof o' h)
  rw [processOrder]
  split
  · exact ⟨lotsOK_weaken hlots, htr⟩
  · dsimp only
    cases hq : lookupPos st.positions o.symbol with
    | nil =>
      refine ⟨?_, htr⟩
      intro p hp lot hl
      rcases setPos_mem hp with hp | hp
      · exact ⟨(hlots p hp lot hl).1,
          fun o' ho' => (hlots p hp lot hl).2 o' (List.mem_cons_of_mem _ ho')⟩
      · rw [hp] at hl
        rcases List.mem_singleton.mp hl with rfl
        exact ⟨hosome, holater⟩
    | cons lot0 restLots =>
      have hqmem : ∀ lot ∈ lot0 :: restLots,
          lot.order.placingTime.isSome = true ∧
          ∀ o' ∈ o :: l, orderTime lot.order ≤ orderTime o' := by
        intro lot hl
        obtain ⟨r, hr, hlr⟩ := lookupPos_sub (hq ▸ hl)
        exact hlots r hr lot hlr
      dsimp only
      split
      · refine ⟨?_, htr⟩
        intro p hp lot hl
        rcases setPos_mem hp with hp | hp
        · exact ⟨(hlots p hp lot hl).1,
            fun o' ho' => (hlots p hp lot hl).2 o' (List.mem_cons_of_mem _ ho')⟩
        · rw [hp] at hl
          rcases List.mem_append.mp hl with hl | hl
          · exact ⟨(hqmem lot hl).1,
              fun o' ho' => (hqmem lot hl).2 o' (List.mem_cons_of_mem _ ho')⟩
          · rcases List.mem_singleton.mp hl with rfl
            exact ⟨hosome, holater⟩
      · constructor
        · intro p hp lot hl
          rcases setPos_mem hp with hp | hp
          · exact ⟨(hlots p hp lot hl).1,
              fun o' ho' => (hlots p hp lot hl).2 o' (List.mem_cons_of_mem _ ho')⟩
          · rw [hp] at hl
            have hsurvive : ∀ lot' : Lot,
                lot' ∈ (closeLots o o.qty (lot0 :: restLots)).2.2 →
                lot'.order.placingTime.isSome = true ∧
                ∀ o' ∈ l, orderTime lot'.order ≤ orderTime o' := by
              intro lot' hlot'
              obtain ⟨lotx, hx, hex⟩ :=
                closeLotsAux_lots_orders o _ _ _ lot' hlot'
              rw [hex]
              exact ⟨(hqmem lotx hx).1,
                fun o' ho' => (hqmem lotx hx).2 o' (List.mem_cons_of_mem _ ho')⟩
            split at hl
            · rcases List.mem_append.mp hl with hl | hl
              · exact hsurvive lot hl
              · rcases List.mem_singleton.mp hl with rfl
                exact ⟨hosome, holater⟩
            · exact hsurvive lot hl
        · intro t ht
          rcases List.mem_append.mp ht with ht | ht
          · exact htr t ht
          · obtain ⟨lotx, c, hx, rfl⟩ := closeLotsAux_trade_shape o _ _ _ t ht
            obtain ⟨hxsome, hxle⟩ := hqmem lotx hx
            obtain ⟨a, ha⟩ := Option.isSome_iff_exists.mp hxsome
            obtain ⟨b, hb⟩ := Option.isSome_iff_exists.mp hosome
            refine ⟨a, b, ?_, ?_, ?_⟩
            · show lotx.order.placingTime = some a
              exact ha
            · show o.placingTime = some b
              exact hb
            · have := hxle o (List.mem_cons_self o l)
              rw [orderTime, orderTime, ha, hb] at this
              simpa using this

/-- The fold of the matcher over a sorted stream with present times keeps
every emitted trade's entry time at or before its exit time. -/
lemma c5_invariant : ∀ (l : List Order) (st : MatchState),
    l.Pairwise (fun a b => orderLE a b = true) →
    (∀ o ∈ l, o.placingTime.isSome = true) →
    lotsOK st l →
    (∀ t ∈ st.trades, TP t) →
    (∀ t ∈ (l.foldl processOrder st).trades, TP t) := by
  intro l
  induction l with
  | nil => intro st _ _ _ htr t ht; exact htr t ht
  | cons o rest ih =>
    intro st hpw hsome hlots htr t ht
    obtain ⟨hhead, hpw'⟩ := List.pairwise_cons.mp hpw
    obtain ⟨hA, hB⟩ := processOrder_preserves st o rest hlots
      (hsome o (List.mem_cons_self o rest)) hhead htr
    exact ih (processOrder st o) hpw'
      (fun o' h => hsome o' (List.mem_cons_of_mem _ h)) hA hB t ht

/-- The C5 concrete stream: a short entry closed by a later buy. -/
def c5Orders : List Order :=
  [ sampleOrder "YM1!" "Sell" 2 300 7 "c5a", sampleOrder "YM1!" "Buy" 2 290 9 "c5b" ]

/-- The single trade the matcher produces on `c5Orders`. -/
def c5TheTrade : Trade :=
  createTradeObject
    (entryCopy (mkLot (sampleOrder "YM1!" "Sell" 2 300 7 "c5a")) 2)
    (exitCopy (sampleOrder "YM1!" "Buy" 2 290 9 "c5b") 2)

end Calc

/-- C5: for every input order list, every trade the matcher produces has a
present entry time and a present exit time with `entryTime ≤ exitTime`,
where the entry time is the placing time of the order that opened the
now-closing lot and the exit time that of the closing order — under the
matcher's deterministic sort by placing time with fill-price tiebreak. -/
theorem c5_entry_time_le_exit_time (orders : List Calc.Order) (t : Calc.Trade)
    (ht : t ∈ Calc.matchTrades orders) :
    ∃ a b : ℤ, t.entryTime = some a ∧ t.exitTime = some b ∧ a ≤ b := by
  rw [Calc.matchTrades, Calc.matchState] at ht
  have hpw : (Calc.validSorted orders).Pairwise (fun a b => Calc.orderLE a b = true) := by
    have := List.sorted_mergeSort Calc.orderLE_trans Calc.orderLE_total
      (orders.filter Calc.validFilter)
    rw [Calc.validSorted]
    simpa using this
  have hsome : ∀ o ∈ Calc.validSorted orders, o.placingTime.isSome = true := by
    intro o ho
    rw [Calc.validSorted] at ho
    have : o ∈ orders.filter Calc.validFilter := List.mem_mergeSort.mp ho
    have hv : Calc.validFilter o = true := List.of_mem_filter this
    rw [Calc.validFilter, Bool.and_eq_true] at hv
    exact hv.2
  exact Calc.c5_invariant (Calc.validSorted orders) ⟨[], []⟩ hpw hsome
    (by intro p hp; cases hp) (by intro u hu; cases hu) t ht

/-- Witness for C5: the concrete short round trip carries entry time 7 and
exit time 9. -/
theorem c5_entry_time_le_exit_time_witness :
    ∃ a b : ℤ, Calc.c5TheTrade.entryTime = some a ∧
      Calc.c5TheTrade.exitTime = some b ∧ a ≤ b :=
  c5_entry_time_le_exit_time Calc.c5Orders Calc.c5TheTrade
    (by
      have hs : Calc.validSorted Calc.c5Orders = Calc.c5Orders.filter Calc.validFilter :=
        Calc.validSorted_eq_filter Calc.c5Orders (by decide)
      simp only [Calc.matchTrades, Calc.matchState, hs]
      norm_num +decide [Calc.c5Orders, Calc.c5TheTrade, Calc.sampleOrder, Calc.validFilter,
        qTruthy, List.filter, List.foldl, Calc.processOrder, Calc.lookupPos, Calc.setPos,
        List.find?, Calc.closeLots, Calc.closeLotsAux, Calc.mkLot, Calc.createTradeObject,
        Calc.entryCopy, Calc.exitCopy, sTruthy, jsOrS, jsMin, Calc.parseMargin, jsOrO,
        toLowerStr])

/-- A list split into a `¬P` block followed by a `P` block is unique. -/
lemma append_split_unique {α : Type} (P : α → Prop) :
    ∀ (s₁ s₂ s₃ s₄ : List α), s₁ ++ s₂ = s₃ ++ s₄ →
      (∀ b ∈ s₁, ¬ P b) → (∀ b ∈ s₂, P b) →
      (∀ b ∈ s₃, ¬ P b) → (∀ b ∈ s₄, P b) →
      s₁ = s₃ ∧ s₂ = s₄ := by
  intro s₁
  induction s₁ with
  | nil =>
    intro s₂ s₃ s₄ heq h1 h2 h3 h4
    cases s₃ with
    | nil => exact ⟨rfl, heq⟩
    | cons x s₃' =>
      rw [List.nil_append] at heq
      exact absurd (h2 x (by rw [heq]; exact List.mem_cons_self x _))
        (h3 x (List.mem_cons_self x s₃'))
  | cons x s₁' ih =>
    intro s₂ s₃ s₄ heq h1 h2 h3 h4
    cases s₃ with
    | nil =>
      rw [List.nil_append] at heq
      exact absurd (h4 x (by rw [← heq]; exact List.mem_cons_self x _))
        (h1 x (List.mem_cons_self x s₁'))
    | cons y s₃' =>
      rw [List.cons_append, List.cons_append] at heq
      injection heq with hxy heq'
      obtain ⟨e1, e2⟩ := ih s₂ s₃' s₄ heq'
        (fun b hb => h1 b (List.mem_cons_of_mem _ hb)) h2
        (fun b hb => h3 b (List.mem_cons_of_mem _ hb)) h4
      exact ⟨by rw [hxy, e1], e2⟩

/-- A stable merge sort commutes with `filter`: filtering the sorted list is
sorting the filtered list. -/
lemma filter_mergeSort {α : Type} (le : α → α → Bool)
    (htrans : ∀ (a b c : α), le a b → le b c → le a c)
    (htotal : ∀ (a b : α), le a b || le b a)
    (p : α → Bool) :
    ∀ l : List α, (l.mergeSort le).filter p = (l.filter p).mergeSort le := by
  intro l
  induction l with
  | nil => simp
  | cons a t iht =>
    obtain ⟨l₁, l₂, h₁, h₂, h₃⟩ := List.mergeSort_cons htrans htotal a t
    have hsorted : (l₁ ++ a :: l₂).Pairwise (fun x y => le x y = true) := by
      have := List.sorted_mergeSort htrans htotal (a :: t)
      rw [h₁] at this
      simpa using this
    have hl₂ : ∀ b ∈ l₂, le a b = true := by
      have h' := (List.pairwise_append.mp hsorted).2.1
      exact fun b hb => (List.pairwise_cons.mp h').1 b hb
    have hl₁ : ∀ b ∈ l₁, ¬ le a b = true := fun b hb => by simpa using h₃ b hb
    by_cases hpa : p a = true
    · obtain ⟨m₁, m₂, g₁, g₂, g₃⟩ := List.mergeSort_cons htrans htotal a (t.filter p)
      have hsorted₂ : (m₁ ++ a :: m₂).Pairwise (fun x y => le x y = true) := by
        have := List.sorted_mergeSort htrans htotal (a :: t.filter p)
        rw [g₁] at this
        simpa using this
      have hm₂ : ∀ b ∈ m₂, le a b = true := by
        have h' := (List.pairwise_append.mp hsorted₂).2.1
        exact fun b hb => (List.pairwise_cons.mp h').1 b hb
      have hm₁ : ∀ b ∈ m₁, ¬ le a b = true := fun b hb => by simpa using g₃ b hb
      have hL : m₁ ++ m₂ = l₁.filter p ++ l₂.filter p := by
        rw [← g₂, ← List.filter_append, ← h₂, iht]
      obtain ⟨hm₁eq, hm₂eq⟩ := append_split_unique (fun b => le a b = true)
        m₁ m₂ (l₁.filter p) (l₂.filter p) hL hm₁ hm₂
        (fun b hb => hl₁ b (List.mem_of_mem_filter hb))
        (fun b hb => hl₂ b (List.mem_of_mem_filter hb))
      rw [h₁, List.filter_append, List.filter_cons_of_pos hpa,
        List.filter_cons_of_pos hpa, g₁, hm₁eq, hm₂eq]
    · have hpa' : p a = false := by simpa using hpa
      rw [h₁, List.filter_append, List.filter_cons_of_neg (by simp [hpa']),
        ← List.filter_append, ← h₂, iht, List.filter_cons_of_neg (by simp [hpa'])]

namespace Calc

/-- The in-loop status precondition of `matchTrades`. -/
def statusFilled (o : Order) : Bool := o.status == "Filled"

/-- The code's full participation predicate: truthy `fillPrice` (present and
non-zero), present `placingTime`, and status `Filled`. -/
def participates (o : Order) : Bool := validFilter o && statusFilled o

/-- The participation predicate as the claim words it (non-null `fillPrice`,
non-null `placingTime`, filled status) — stated from the spec for comparison
with the code's truthiness filter `validFilter`. -/
def claimParticipates (o : Order) : Bool :=
  o.fillPrice.isSome && o.placingTime.isSome && (o.status == "Filled")

/-- Dropping the non-`Filled` orders from the processed stream does not
change the fold (the loop skips them). -/
lemma foldl_skip_unfilled : ∀ (l : List Order) (st : MatchState),
    (l.filter statusFilled).foldl processOrder st = l.foldl processOrder st := by
  intro l
  induction l with
  | nil => intro st; rfl
  | cons o rest ih =>
    intro st
    by_cases hs : statusFilled o = true
    · rw [List.filter_cons_of_pos hs]
      simp only [List.foldl_cons]
      exact ih (processOrder st o)
    · rw [List.filter_cons_of_neg (by simpa using hs)]
      simp only [List.foldl_cons]
      have hskip : processOrder st o = st := by
        rw [processOrder, if_pos]
        intro hc
        rw [statusFilled] at hs
        exact hs (by simp [hc])
      rw [hskip]
      exact ih st

/-- A filled sell order with fill price 0 (dropped by the truthiness filter
although the claim's conditions hold for it). -/
def c4Zero : Order := sampleOrder "GC1!" "Sell" 1 0 1 "z1"

/-- The same order with fill price 1. -/
def c4One : Order := sampleOrder "GC1!" "Sell" 1 1 1 "o1"

/-- A later filled buy that would close the position. -/
def c4Buy : Order := sampleOrder "GC1!" "Buy" 1 5 2 "b1"

end Calc

/-- C4 counterexample: the filled sell at fill price 0 satisfies all three
conditions of the claim, yet the matcher drops it — its stream produces no
trade, while the identical stream with a non-zero fill price produces one. -/
theorem c4_counterexample :
    Calc.claimParticipates Calc.c4Zero = true ∧
    Calc.validFilter Calc.c4Zero = false ∧
    Calc.matchTrades [Calc.c4Zero, Calc.c4Buy] = [] ∧
    Calc.matchTrades [Calc.c4One, Calc.c4Buy] ≠ [] := by
  refine ⟨by decide, by decide, ?_, ?_⟩
  · have hs : Calc.validSorted [Calc.c4Zero, Calc.c4Buy] =
        ([Calc.c4Zero, Calc.c4Buy] : List Calc.Order).filter Calc.validFilter :=
      Calc.validSorted_eq_filter _ (by decide)
    simp only [Calc.matchTrades, Calc.matchState, hs]
    norm_num +decide [Calc.c4Zero, Calc.c4Buy, Calc.sampleOrder, Calc.validFilter, qTruthy,
      List.filter, List.foldl, Calc.processOrder, Calc.lookupPos, Calc.setPos, List.find?,
      Calc.closeLots, Calc.closeLotsAux, Calc.mkLot, Calc.createTradeObject, Calc.entryCopy,
      Calc.exitCopy, sTruthy, jsOrS, jsMin, Calc.parseMargin, jsOrO, toLowerStr]
  · have hs : Calc.validSorted [Calc.c4One, Calc.c4Buy] =
        ([Calc.c4One, Calc.c4Buy] : List Calc.Order).filter Calc.validFilter :=
      Calc.validSorted_eq_filter _ (by decide)
    simp only [Calc.matchTrades, Calc.matchState, hs]
    norm_num +decide [Calc.c4One, Calc.c4Buy, Calc.sampleOrder, Calc.validFilter, qTruthy,
      List.filter, List.foldl, Calc.processOrder, Calc.lookupPos, Calc.setPos, List.find?,
      Calc.closeLots, Calc.closeLotsAux, Calc.mkLot, Calc.createTradeObject, Calc.entryCopy,
      Calc.exitCopy, sTruthy, jsOrS, jsMin, Calc.parseMargin, jsOrO, toLowerStr]

/-- C4 (amended): exactly the orders with truthy `fillPrice` (present and
non-zero — a fill price of 0 is dropped), present `placingTime` and status
`Filled` participate in matching; every other order is dropped silently (the
matcher is a total function) and has no effect on the trades produced. -/
theorem c4_participation (orders : List Calc.Order) :
    Calc.matchTrades orders = Calc.matchTrades (orders.filter Calc.participates) := by
  have h1 : (orders.filter Calc.participates).filter Calc.validFilter =
      orders.filter Calc.participates := by
    rw [List.filter_filter]
    apply List.filter_congr
    intro o _
    cases hv : Calc.validFilter o <;>
      simp [Calc.participates, hv]
  have h2 : orders.filter Calc.participates =
      (orders.filter Calc.validFilter).filter Calc.statusFilled := by
    rw [List.filter_filter]
    apply List.filter_congr
    intro o _
    simp [Calc.participates, Bool.and_comm]
  have h3 : ((orders.filter Calc.validFilter).filter Calc.statusFilled).mergeSort
        Calc.orderLE =
      ((orders.filter Calc.validFilter).mergeSort Calc.orderLE).filter
        Calc.statusFilled :=
    (filter_mergeSort Calc.orderLE Calc.orderLE_trans Calc.orderLE_total
      Calc.statusFilled _).symm
  rw [Calc.matchTrades, Calc.matchTrades, Calc.matchState, Calc.matchState,
    Calc.validSorted, Calc.validSorted, h1, h2, h3, Calc.foldl_skip_unfilled]

namespace Calc

/-- Reading back the symbol just written by `positions[sym] = pos`. -/
lemma lookupPos_setPos_self (ps : List (String × List Lot)) (s : String) (q : List Lot) :
    lookupPos (setPos ps s q) s = q := by
  rw [setPos]
  by_cases hf : (ps.find? (fun p => p.1 == s)).isSome = true
  · rw [if_pos hf, lookupPos, List.find?_map]
    have hcomp : ((fun p : String × List Lot => p.1 == s) ∘
        (fun p : String × List Lot => if p.1 == s then (p.1, q) else p)) =
        (fun p : String × List Lot => p.1 == s) := by
      funext p
      by_cases hp : (p.1 == s) = true <;> simp [Function.comp, hp]
    rw [hcomp]
    obtain ⟨a, ha⟩ := Option.isSome_iff_exists.mp hf
    have hps : (a.1 == s) = true := by
      have h2 := List.find?_some ha
      simpa using h2
    have haeq : a.1 = s := by simpa using hps
    rw [ha]
    simp [hps, haeq]
  · rw [if_neg hf, lookupPos, List.find?_append]
    have hnone : ps.find? (fun p => p.1 == s) = none := by
      cases h : ps.find? (fun p => p.1 == s) with
      | none => rfl
      | some a => rw [h] at hf; simp at hf
    rw [hnone, List.find?_cons_of_pos _ (by simp)]
    rfl

/-- Writing one symbol's queue leaves every other symbol's lookup unchanged. -/
lemma lookupPos_setPos_ne (ps : List (String × List Lot)) (s s' : String) (q : List Lot)
    (hne : s' ≠ s) : lookupPos (setPos ps s q) s' = lookupPos ps s' := by
  rw [setPos]
  by_cases hf : (ps.find? (fun p => p.1 == s)).isSome = true
  · rw [if_pos hf, lookupPos, lookupPos, List.find?_map]
    have hcomp : ((fun p : String × List Lot => p.1 == s') ∘
        (fun p : String × List Lot => if p.1 == s then (p.1, q) else p)) =
        (fun p : String × List Lot => p.1 == s') := by
      funext p
      by_cases hp : (p.1 == s) = true <;> simp [Function.comp, hp]
    rw [hcomp]
    cases h : ps.find? (fun p => p.1 == s') with
    | none => rfl
    | some a =>
      have has : a.1 = s' := by
        have h2 := List.find?_some h
        simpa using h2
      have hanes : (a.1 == s) = false := by simp [has, hne]
      have hans : ¬ a.1 = s := by rw [has]; exact hne
      simp [hanes, hans]
  · rw [if_neg hf, lookupPos, lookupPos, List.find?_append]
    have hlast : ([(s, q)].find? (fun p => p.1 == s')) = none := by
      rw [List.find?_cons_of_neg _ (by simp; exact fun h => hne h.symm)]
      rfl
    rw [hlast]
    cases ps.find? (fun p => p.1 == s') <;> rfl

/-- Every entry of the written-back table is an old entry or the freshly
written pair. -/
lemma setPos_mem_key {positions : List (String × List Lot)} {sym : String}
    {q : List Lot} {r : String × List Lot} (h : r ∈ setPos positions sym q) :
    r ∈ positions ∨ (r.1 = sym ∧ r.2 = q) := by
  rw [setPos] at h
  split at h
  · rcases List.mem_map.mp h with ⟨p, hp, hr⟩
    by_cases hps : (p.1 == sym) = true
    · right
      rw [← hr, if_pos hps]
      exact ⟨by simpa using hps, rfl⟩
    · left
      rw [← hr, if_neg hps]
      exact hp
  · rcases List.mem_append.mp h with h | h
    · exact Or.inl h
    · right
      rw [List.mem_singleton.mp h]
      exact ⟨rfl, rfl⟩

/-- Every lot returned by a lookup lives in a table entry keyed by the looked
up symbol. -/
lemma lookupPos_sub_key {positions : List (String × List Lot)} {sym : String}
    {lot : Lot} (h : lot ∈ lookupPos positions sym) :
    ∃ r ∈ positions, lot ∈ r.2 ∧ r.1 = sym := by
  rw [lookupPos] at h
  cases hf : positions.find? (fun p => p.1 == sym) with
  | none => rw [hf] at h; simp at h
  | some r =>
    rw [hf] at h
    simp at h
    exact ⟨r, List.mem_of_find?_eq_some hf, h,
      by simpa using List.find?_some hf⟩

lemma createTrade_quantity (a b : Order) : (createTradeObject a b).quantity = a.qty := rfl

lemma createTrade_entrySymbol (a b : Order) :
    (createTradeObject a b).entryOrder.symbol = a.symbol := rfl

lemma entryCopy_qty (lot : Lot) (c : ℚ) : (entryCopy lot c).qty = c := rfl

lemma entryCopy_symbol (lot : Lot) (c : ℚ) :
    (entryCopy lot c).symbol = lot.order.symbol := rfl

/-- Quantity bookkeeping of the FIFO closing loop: the leftover quantity is
nonnegative, the closed quantity leaves the order side and the lot side in
equal amounts (each emitted trade consumes its quantity from both), every
emitted trade has strictly positive quantity keyed by a queued lot's symbol,
and every surviving lot is strictly positive with its originating order
unchanged. -/
lemma closeLotsAux_spec (order : Order) :
    ∀ (fuel : ℕ) (remaining : ℚ) (pos : List Lot),
      0 ≤ remaining → (∀ lot ∈ pos, 0 < lot.qty) →
      0 ≤ (closeLotsAux order fuel remaining pos).2.1 ∧
      remaining - (closeLotsAux order fuel remaining pos).2.1 =
        (((closeLotsAux order fuel remaining pos).1).map Trade.quantity).sum ∧
      (pos.map Lot.qty).sum =
        (((closeLotsAux order fuel remaining pos).1).map Trade.quantity).sum +
        (((closeLotsAux order fuel remaining pos).2.2).map Lot.qty).sum ∧
      (∀ t ∈ (closeLotsAux order fuel remaining pos).1,
        0 < t.quantity ∧ ∃ lot ∈ pos, t.entryOrder.symbol = lot.order.symbol) ∧
      (∀ lot' ∈ (closeLotsAux order fuel remaining pos).2.2,
        0 < lot'.qty ∧ ∃ lot ∈ pos, lot'.order = lot.order) := by
  intro fuel
  induction fuel with
  | zero =>
    intro remaining pos hrem hpos
    simp only [closeLotsAux]
    refine ⟨hrem, by simp, by simp, by simp, ?_⟩
    intro lot' h
    exact ⟨hpos lot' h, lot', h, rfl⟩
  | succ f ih =>
    intro remaining pos hrem hpos
    cases pos with
    | nil =>
      simp only [closeLotsAux]
      exact ⟨hrem, by simp, by simp, by simp, by simp⟩
    | cons lot rest =>
      by_cases hr0 : remaining ≤ 0
      · rw [closeLotsAux, if_pos hr0]
        refine ⟨hrem, by simp, by simp, by simp, ?_⟩
        intro lot' h
        exact ⟨hpos lot' h, lot', h, rfl⟩
      · rw [closeLotsAux, if_neg hr0]
        dsimp only
        have hlq : 0 < lot.qty := hpos lot (List.mem_cons_self lot rest)
        have hmin_le_rem : jsMin remaining lot.qty ≤ remaining := by
          rw [jsMin_eq_min]; exact min_le_left _ _
        have hmin_le_lot : jsMin remaining lot.qty ≤ lot.qty := by
          rw [jsMin_eq_min]; exact min_le_right _ _
        have hmin_pos : 0 < jsMin remaining lot.qty := by
          rw [jsMin_eq_min]; exact lt_min (not_le.mp hr0) hlq
        by_cases hcons : lot.qty - jsMin remaining lot.qty ≤ 0
        · rw [if_pos hcons]
          have hclose : jsMin remaining lot.qty = lot.qty :=
            le_antisymm hmin_le_lot (by linarith)
          obtain ⟨ih1, ih2, ih3, ih4, ih5⟩ := ih (remaining - jsMin remaining lot.qty) rest
            (by linarith) (fun l hl => hpos l (List.mem_cons_of_mem lot hl))
          refine ⟨ih1, ?_, ?_, ?_, ?_⟩
          · simp only [List.map_cons, List.sum_cons, createTrade_quantity, entryCopy_qty]
            linarith
          · simp only [List.map_cons, List.sum_cons, createTrade_quantity, entryCopy_qty]
            linarith
          · intro t ht
            rcases List.mem_cons.mp ht with rfl | ht
            · exact ⟨hmin_pos, lot, List.mem_cons_self lot rest, rfl⟩
            · obtain ⟨h1, lot2, h2, h3⟩ := ih4 t ht
              exact ⟨h1, lot2, List.mem_cons_of_mem lot h2, h3⟩
          · intro lot' h
            obtain ⟨h1, lot2, h2, h3⟩ := ih5 lot' h
            exact ⟨h1, lot2, List.mem_cons_of_mem lot h2, h3⟩
        · rw [if_neg hcons]
          have hsurv : 0 < lot.qty - jsMin remaining lot.qty := by
            exact lt_of_not_le hcons
          obtain ⟨ih1, ih2, ih3, ih4, ih5⟩ := ih (remaining - jsMin remaining lot.qty)
            ({ lot with qty := lot.qty - jsMin remaining lot.qty } :: rest)
            (by linarith)
            (by
              intro l hl
              rcases List.mem_cons.mp hl with rfl | hl
              · exact hsurv
              · exact hpos l (List.mem_cons_of_mem lot hl))
          refine ⟨ih1, ?_, ?_, ?_, ?_⟩
          · simp only [List.map_cons, List.sum_cons, createTrade_quantity, entryCopy_qty]
            linarith
          · simp only [List.map_cons, List.sum_cons, createTrade_quantity,
              entryCopy_qty] at ih3 ⊢
            linarith
          · intro t ht
            rcases List.mem_cons.mp ht with rfl | ht
            · exact ⟨hmin_pos, lot, List.mem_cons_self lot rest, rfl⟩
            · obtain ⟨h1, lot2, h2, h3⟩ := ih4 t ht
              rcases List.mem_cons.mp h2 with rfl | h2
              · exact ⟨h1, lot, List.mem_cons_self lot rest, h3⟩
              · exact ⟨h1, lot2, List.mem_cons_of_mem lot h2, h3⟩
          · intro lot' h
            obtain ⟨h1, lot2, h2, h3⟩ := ih5 lot' h
            rcases List.mem_cons.mp h2 with rfl | h2
            · exact ⟨h1, lot, List.mem_cons_self lot rest, h3⟩
            · exact ⟨h1, lot2, List.mem_cons_of_mem lot h2, h3⟩

end Calc

namespace Calc

/-- Every queued lot has strictly positive quantity and sits in the queue of
its originating order's symbol. -/
def lotsKeyed (st : MatchState) : Prop :=
  ∀ p ∈ st.positions, ∀ lot ∈ p.2, 0 < lot.qty ∧ lot.order.symbol = p.1

/-- Every emitted trade has strictly positive quantity. -/
def tradesPos (st : MatchState) : Prop := ∀ t ∈ st.trades, 0 < t.quantity

/-- Per-symbol quantity tally of a matcher state: twice the emitted trade
quantity (each trade consumes its quantity from an entry lot and from the
closing order alike) plus the open quantity left in the symbol's queue. -/
def qtyTally (st : MatchState) (s : String) : ℚ :=
  2 * ((st.trades.filter (fun t => t.entryOrder.symbol == s)).map Trade.quantity).sum
    + ((lookupPos st.positions s).map Lot.qty).sum

/-- Quantity a list of orders contributes to symbol `s` through the in-loop
`Filled` check. -/
def orderQtySum (l : List Order) (s : String) : ℚ :=
  ((l.filter (fun o => statusFilled o && (o.symbol == s))).map Order.qty).sum

/-- One matcher step keeps lots positive and keyed, keeps trades positive,
and moves exactly the processed filled order's quantity into its symbol's
tally. -/
lemma processOrder_qty (st : MatchState) (o : Order) (ho : 0 < o.qty)
    (hl : lotsKeyed st) (ht : tradesPos st) :
    lotsKeyed (processOrder st o) ∧ tradesPos (processOrder st o) ∧
    ∀ s, qtyTally (processOrder st o) s =
      qtyTally st s + (if statusFilled o && (o.symbol == s) then o.qty else 0) := by
  by_cases hs : o.status = "Filled"
  · rw [processOrder, if_neg (fun h => h hs)]
    dsimp only
    cases hq : lookupPos st.positions o.symbol with
    | nil =>
      refine ⟨?_, ht, fun s => ?_⟩
      · intro p hp lot hlm
        rcases setPos_mem_key hp with hp | ⟨hp1, hp2⟩
        · exact hl p hp lot hlm
        · rw [hp2] at hlm
          rcases List.mem_singleton.mp hlm with rfl
          exact ⟨ho, by rw [hp1]; rfl⟩
      · by_cases hsym : o.symbol = s
        · subst hsym
          have hif : (if (statusFilled o && (o.symbol == o.symbol)) = true
              then o.qty else (0:ℚ)) = o.qty := by
            simp [statusFilled, hs]
          rw [qtyTally, qtyTally, lookupPos_setPos_self, hq, hif]
          simp [mkLot]
        · have hbe : (o.symbol == s) = false := by simp [hsym]
          have hif : (if (statusFilled o && (o.symbol == s)) = true
              then o.qty else (0:ℚ)) = 0 := by
            simp [hbe]
          rw [qtyTally, qtyTally,
            lookupPos_setPos_ne _ _ _ _ (fun h => hsym h.symm), hif, add_zero]
    | cons lot0 restLots =>
      have hq0 : ∀ lot ∈ lot0 :: restLots, 0 < lot.qty ∧ lot.order.symbol = o.symbol := by
        intro lot hlm
        obtain ⟨r, hr, hlr, hkey⟩ := lookupPos_sub_key (hq ▸ hlm)
        exact ⟨(hl r hr lot hlr).1, by rw [(hl r hr lot hlr).2, hkey]⟩
      dsimp only
      split
      · refine ⟨?_, ht, fun s => ?_⟩
        · intro p hp lot hlm
          rcases setPos_mem_key hp with hp | ⟨hp1, hp2⟩
          · exact hl p hp lot hlm
          · rw [hp2] at hlm
            rcases List.mem_append.mp hlm with hlm | hlm
            · exact ⟨(hq0 lot hlm).1, by rw [hp1]; exact (hq0 lot hlm).2⟩
            · rcases List.mem_singleton.mp hlm with rfl
              exact ⟨ho, by rw [hp1]; rfl⟩
        · by_cases hsym : o.symbol = s
          · subst hsym
            have hif : (if (statusFilled o && (o.symbol == o.symbol)) = true
                then o.qty else (0:ℚ)) = o.qty := by
              simp [statusFilled, hs]
            rw [qtyTally, qtyTally, lookupPos_setPos_self, hq, hif]
            simp [mkLot]
            ring
          · have hbe : (o.symbol == s) = false := by simp [hsym]
            have hif : (if (statusFilled o && (o.symbol == s)) = true
                then o.qty else (0:ℚ)) = 0 := by
              simp [hbe]
            rw [qtyTally, qtyTally,
              lookupPos_setPos_ne _ _ _ _ (fun h => hsym h.symm), hif, add_zero]
      · simp only [closeLots]
        obtain ⟨h1, h2, h3, h4, h5⟩ := closeLotsAux_spec o ((lot0 :: restLots).length + 1)
          o.qty (lot0 :: restLots) (le_of_lt ho) (fun l hlm => (hq0 l hlm).1)
        rcases hE : closeLotsAux o ((lot0 :: restLots).length + 1) o.qty (lot0 :: restLots)
          with ⟨ts, rem, pos2⟩
        rw [hE] at h1 h2 h3 h4 h5
        dsimp only at h1 h2 h3 h4 h5 ⊢
        refine ⟨?_, ?_, fun s => ?_⟩
        · intro p hp lot hlm
          rcases setPos_mem_key hp with hp | ⟨hp1, hp2⟩
          · exact hl p hp lot hlm
          · rw [hp2] at hlm
            have hsurvOK : lot ∈ pos2 → 0 < lot.qty ∧ lot.order.symbol = p.1 := by
              intro hm
              refine ⟨(h5 lot hm).1, ?_⟩
              obtain ⟨lot2, hm2, he2⟩ := (h5 lot hm).2
              rw [he2, (hq0 lot2 hm2).2, hp1]
            by_cases hres : 0 < rem
            · rw [if_pos hres] at hlm
              rcases List.mem_append.mp hlm with hm | hm
              · exact hsurvOK hm
              · rcases List.mem_singleton.mp hm with rfl
                exact ⟨hres, by rw [hp1]⟩
            · rw [if_neg hres] at hlm
              exact hsurvOK hlm
        · intro t htm
          rcases List.mem_append.mp htm with hm | hm
          · exact ht t hm
          · exact (h4 t hm).1
        · by_cases hsym : o.symbol = s
          · subst hsym
            have hif : (if (statusFilled o && (o.symbol == o.symbol)) = true
                then o.qty else (0:ℚ)) = o.qty := by
              simp [statusFilled, hs]
            have hts : ts.filter (fun t => t.entryOrder.symbol == o.symbol) = ts := by
              rw [List.filter_eq_self]
              intro t hm
              obtain ⟨lot2, hm2, he2⟩ := (h4 t hm).2
              simp [he2, (hq0 lot2 hm2).2]
            have hQnew : ((lookupPos (setPos st.positions o.symbol
                (if 0 < rem then pos2 ++ [{ qty := rem, price := o.fillPrice, order := o }]
                  else pos2)) o.symbol).map Lot.qty).sum = (pos2.map Lot.qty).sum + rem := by
              rw [lookupPos_setPos_self]
              by_cases hres : 0 < rem
              · rw [if_pos hres]
                simp
              · rw [if_neg hres]
                have hz : rem = 0 := le_antisymm (not_lt.mp hres) h1
                rw [hz, add_zero]
            rw [qtyTally, qtyTally, hQnew, hq, hif]
            simp only [List.filter_append, hts, List.map_append, List.sum_append]
            linarith
          · have hbe : (o.symbol == s) = false := by simp [hsym]
            have hif : (if (statusFilled o && (o.symbol == s)) = true
                then o.qty else (0:ℚ)) = 0 := by
              simp [hbe]
            have hts : ts.filter (fun t => t.entryOrder.symbol == s) = [] := by
              rw [List.filter_eq_nil_iff]
              intro t hm
              obtain ⟨lot2, hm2, he2⟩ := (h4 t hm).2
              simp [he2, (hq0 lot2 hm2).2, hsym]
            rw [qtyTally, qtyTally,
              lookupPos_setPos_ne _ _ _ _ (fun h => hsym h.symm), hif, add_zero]
            simp only [List.filter_append, hts, List.append_nil]
  · rw [processOrder, if_pos hs]
    refine ⟨hl, ht, fun s => ?_⟩
    have hsf : statusFilled o = false := by simp [statusFilled, hs]
    rw [hsf]
    simp

end Calc

namespace Calc

/-- The matcher fold keeps lots positive and keyed, keeps trades positive,
and accrues per symbol exactly the filled quantity it processes. -/
lemma foldl_qty : ∀ (l : List Order) (st : MatchState),
    (∀ o ∈ l, 0 < o.qty) → lotsKeyed st → tradesPos st →
    lotsKeyed (l.foldl processOrder st) ∧ tradesPos (l.foldl processOrder st) ∧
    ∀ s, qtyTally (l.foldl processOrder st) s = qtyTally st s + orderQtySum l s := by
  intro l
  induction l with
  | nil =>
    intro st _ hl ht
    exact ⟨hl, ht, fun s => by simp [orderQtySum]⟩
  | cons o rest ih =>
    intro st hpos hl ht
    obtain ⟨g1, g2, g3⟩ := processOrder_qty st o (hpos o (List.mem_cons_self o rest)) hl ht
    obtain ⟨f1, f2, f3⟩ := ih (processOrder st o)
      (fun o2 h => hpos o2 (List.mem_cons_of_mem _ h)) g1 g2
    simp only [List.foldl_cons]
    refine ⟨f1, f2, fun s => ?_⟩
    rw [f3 s, g3 s, orderQtySum, orderQtySum, List.filter_cons]
    by_cases hc : (statusFilled o && (o.symbol == s)) = true
    · rw [if_pos hc, if_pos hc]
      simp only [List.map_cons, List.sum_cons]
      ring
    · rw [if_neg hc, if_neg hc]
      ring

/-- The participating quantity processed from the sorted stream equals the
one of the unsorted input. -/
lemma orderQtySum_validSorted (orders : List Order) (s : String) :
    orderQtySum (validSorted orders) s =
      ((orders.filter (fun o => participates o && (o.symbol == s))).map Order.qty).sum := by
  rw [orderQtySum, validSorted]
  have hperm : List.Perm ((orders.filter validFilter).mergeSort orderLE)
      (orders.filter validFilter) :=
    List.mergeSort_perm _ _
  have hsum := ((hperm.filter
    (fun o => statusFilled o && (o.symbol == s))).map Order.qty).sum_eq
  rw [hsum, List.filter_filter]
  congr 1
  congr 1
  apply List.filter_congr
  intro o _
  rw [participates]
  cases statusFilled o <;> cases validFilter o <;> cases (o.symbol == s) <;> rfl

end Calc

/-- C10 (implicit): per-symbol quantity conservation of the matcher — for
every input whose orders all carry strictly positive quantity, the
participating quantity of each symbol equals twice the emitted trade
quantity of that symbol plus the residual open quantity left in its queue;
moreover every emitted trade has strictly positive quantity, and at no point
during matching does any queued lot's quantity become zero or negative. -/
theorem c10_quantity_conservation (orders : List Calc.Order) (sym : String)
    (hpos : ∀ o ∈ orders, 0 < o.qty) :
    ((orders.filter (fun o => Calc.participates o && (o.symbol == sym))).map
        Calc.Order.qty).sum =
      2 * (((Calc.matchTrades orders).filter
          (fun t => t.entryOrder.symbol == sym)).map Calc.Trade.quantity).sum +
        Calc.residualQty orders sym ∧
    (∀ t ∈ Calc.matchTrades orders, 0 < t.quantity) ∧
    ∀ n : ℕ, ∀ p ∈ (((Calc.validSorted orders).take n).foldl Calc.processOrder
        ⟨[], []⟩ : Calc.MatchState).positions, ∀ lot ∈ p.2, 0 < lot.qty := by
  have hposv : ∀ o ∈ Calc.validSorted orders, 0 < o.qty := by
    intro o ho
    rw [Calc.validSorted] at ho
    exact hpos o (List.mem_of_mem_filter (List.mem_mergeSort.mp ho))
  have hinitL : Calc.lotsKeyed ⟨[], []⟩ := by
    intro p hp
    simp at hp
  have hinitT : Calc.tradesPos ⟨[], []⟩ := by
    intro t htm
    simp at htm
  obtain ⟨F1, F2, F3⟩ := Calc.foldl_qty (Calc.validSorted orders) ⟨[], []⟩ hposv hinitL hinitT
  refine ⟨?_, ?_, ?_⟩
  · have hT := F3 sym
    have hzero : Calc.qtyTally ⟨[], []⟩ sym = 0 := by
      simp [Calc.qtyTally, Calc.lookupPos]
    rw [hzero, zero_add, Calc.orderQtySum_validSorted, Calc.qtyTally] at hT
    rw [← hT, Calc.matchTrades, Calc.matchState, Calc.residualQty, Calc.matchState]
  · intro t htm
    rw [Calc.matchTrades, Calc.matchState] at htm
    exact F2 t htm
  · intro n p hp lot hlm
    have hpos2 : ∀ o ∈ (Calc.validSorted orders).take n, 0 < o.qty :=
      fun o h => hposv o (List.take_subset n _ h)
    obtain ⟨G1, _, _⟩ := Calc.foldl_qty ((Calc.validSorted orders).take n) ⟨[], []⟩
      hpos2 hinitL hinitT
    exact (G1 p hp lot hlm).1

/-- Witness for C10: conservation on the reference stream, per symbol
`ES1!` (5 = 2·(2+2+1)/2 + 0 with an empty residual queue). -/
theorem c10_quantity_conservation_witness :
    ((Calc.c2Orders.filter (fun o => Calc.participates o && (o.symbol == "ES1!"))).map
        Calc.Order.qty).sum =
      2 * (((Calc.matchTrades Calc.c2Orders).filter
          (fun t => t.entryOrder.symbol == "ES1!")).map Calc.Trade.quantity).sum +
        Calc.residualQty Calc.c2Orders "ES1!" ∧
    (∀ t ∈ Calc.matchTrades Calc.c2Orders, 0 < t.quantity) ∧
    ∀ n : ℕ, ∀ p ∈ (((Calc.validSorted Calc.c2Orders).take n).foldl Calc.processOrder
        ⟨[], []⟩ : Calc.MatchState).positions, ∀ lot ∈ p.2, 0 < lot.qty :=
  c10_quantity_conservation Calc.c2Orders "ES1!" (by decide)
